import Mathlib

/-!
Verification of the epanet-utilities network pipeline against its source.

JavaScript strings are modelled as lists of characters (`Str`), JavaScript
numbers as exact rationals (`ℚ`), and JavaScript `Record` objects as
insertion-ordered association lists with pairwise-distinct keys.  The
external `proj4` library is modelled as an abstract transform parameter.
-/

namespace EpanetModel

/-- Character sequences standing for JavaScript strings. -/
abbrev Str := List Char

/-- Whitespace characters recognised by JavaScript `trim` and the regex
class from the character ranges that occur in INP files. -/
def isWsChar (c : Char) : Bool :=
  c == ' ' || c == '\t' || c == '\n' || c == '\r' || c == '\x0b' || c == '\x0c' || c == ' '

/-! ## Embedding of src/lib/model-builder-constants.ts -/

/-- Flow units of the US group, from `FLOW_UNITS_US`. -/
def FLOW_UNITS_US : List String := ["CFS", "GPM", "MGD", "IMGD", "AFD"]

/-- Flow units of the metric group, from `FLOW_UNITS_METRIC`. -/
def FLOW_UNITS_METRIC : List String := ["LPS", "LPM", "MLD", "CMH", "CMD"]

/-- All flow units, from `FLOW_UNITS` (spread of the two groups). -/
def FLOW_UNITS : List String := FLOW_UNITS_US ++ FLOW_UNITS_METRIC

/-- Membership test on the metric group, from `isMetricUnit`. -/
def isMetricUnit (unit : String) : Bool :=
  FLOW_UNITS_METRIC.contains unit

/-- Association-list lookup mirroring JavaScript keyed-object access. -/
def lookupA {κ V : Type} [DecidableEq κ] : List (κ × V) → κ → Option V
  | [], _ => none
  | (k', v) :: rest, k => if k' = k then some v else lookupA rest k

/-- Attribute to (us label, metric label), from `ATTRIBUTE_UNIT_MAP`. -/
def ATTRIBUTE_UNIT_MAP : List (String × (String × String)) :=
  [("Diameter", ("in", "mm")),
   ("InitLevel", ("ft", "m")),
   ("MinLevel", ("ft", "m")),
   ("MaxLevel", ("ft", "m")),
   ("Head", ("ft", "m"))]

/-- Displayed unit label for an attribute, from `getAttributeUnit`. -/
def getAttributeUnit (attr : String) (unit : String) : Option String :=
  match lookupA ATTRIBUTE_UNIT_MAP attr with
  | none => none
  | some mapping => some (if isMetricUnit unit then mapping.2 else mapping.1)

/-- Default pipe roughness per headloss formula, from `PIPE_ROUGHNESS_DEFAULT`. -/
def PIPE_ROUGHNESS_DEFAULT : List (String × ℚ) :=
  [("Hazen-Williams", 100),
   ("Darcy-Weisbach", 0.01),
   ("Chezy-Manning", 0.013)]

/-- Lookup with fallback 100, from `getDefaultPipeRoughness` (the `?? 100`). -/
def getDefaultPipeRoughness (formula : String) : ℚ :=
  (lookupA PIPE_ROUGHNESS_DEFAULT formula).getD 100

/-- Schema default values are either numbers or strings. -/
inductive AttrValue where
  | num : ℚ → AttrValue
  | str : String → AttrValue
deriving DecidableEq

/-- Element schema record, from the `EpanetElementDefinition` shape used by
`EPANET_ELEMENTS`. -/
structure EpanetElementDefinition where
  key : String
  name : String
  geometryTypes : List String
  requiredAttributes : List String
  optionalAttributes : List String
  defaultValues : List (String × AttrValue)
deriving DecidableEq

/-- Pipes schema entry of `EPANET_ELEMENTS`. -/
def pipesElement : EpanetElementDefinition :=
  { key := "pipes", name := "Pipes",
    geometryTypes := ["LineString", "MultiLineString"],
    requiredAttributes := ["Id", "Diameter", "Roughness"],
    optionalAttributes := ["MinorLoss", "Status", "Comment"],
    defaultValues := [("Diameter", .num 150), ("Roughness", .num 100),
                      ("MinorLoss", .num 0), ("Status", .str "Open")] }

/-- Nodes schema entry of `EPANET_ELEMENTS`. -/
def nodesElement : EpanetElementDefinition :=
  { key := "nodes", name := "Nodes",
    geometryTypes := ["Point", "MultiPoint"],
    requiredAttributes := ["Id"],
    optionalAttributes := ["Comment"],
    defaultValues := [] }

/-- Valves schema entry of `EPANET_ELEMENTS`. -/
def valvesElement : EpanetElementDefinition :=
  { key := "valves", name := "Valves",
    geometryTypes := ["Point", "MultiPoint"],
    requiredAttributes := ["Id", "Diameter", "Type", "Setting"],
    optionalAttributes := ["MinorLoss", "Comment"],
    defaultValues := [("Diameter", .num 150), ("Type", .str "PRV"),
                      ("Setting", .num 0), ("MinorLoss", .num 0)] }

/-- Pumps schema entry of `EPANET_ELEMENTS`. -/
def pumpsElement : EpanetElementDefinition :=
  { key := "pumps", name := "Pumps",
    geometryTypes := ["Point", "MultiPoint"],
    requiredAttributes := ["Id"],
    optionalAttributes := ["Parameters", "Comment"],
    defaultValues := [("Parameters", .str "POWER 5")] }

/-- Tanks schema entry of `EPANET_ELEMENTS`. -/
def tanksElement : EpanetElementDefinition :=
  { key := "tanks", name := "Tanks",
    geometryTypes := ["Point", "MultiPoint"],
    requiredAttributes := ["Id", "InitLevel", "MinLevel", "MaxLevel", "Diameter"],
    optionalAttributes := ["MinVolume", "Comment"],
    defaultValues := [("InitLevel", .num 5), ("MinLevel", .num 0),
                      ("MaxLevel", .num 10), ("Diameter", .num 50),
                      ("MinVolume", .num 0)] }

/-- Reservoirs schema entry of `EPANET_ELEMENTS`. -/
def reservoirsElement : EpanetElementDefinition :=
  { key := "reservoirs", name := "Reservoirs",
    geometryTypes := ["Point", "MultiPoint"],
    requiredAttributes := ["Id", "Head"],
    optionalAttributes := ["Comment"],
    defaultValues := [("Head", .num 0)] }

/-- The element schema table, from `EPANET_ELEMENTS`. -/
def EPANET_ELEMENTS : List EpanetElementDefinition :=
  [pipesElement, nodesElement, valvesElement, pumpsElement, tanksElement, reservoirsElement]

/-- Geometry-type admissibility per element kind, from `isValidGeometryForElement`. -/
def isValidGeometryForElement (geometryType : String) (elementType : String) : Bool :=
  match EPANET_ELEMENTS.find? (fun e => e.key == elementType) with
  | none => false
  | some element => element.geometryTypes.contains geometryType

/-! ## String primitives mirroring the JavaScript operations used by
src/lib/network-utils.ts -/

/-- Split on newline characters, as JavaScript `split("\n")`. -/
def splitNl : Str → List Str
  | [] => [[]]
  | c :: cs =>
    if c = '\n' then [] :: splitNl cs
    else
      match splitNl cs with
      | [] => [[c]]
      | t :: ts => (c :: t) :: ts

/-- Join with newline separators, as JavaScript `join("\n")`. -/
def joinNl : List Str → Str
  | [] => []
  | [l] => l
  | l :: ls => l ++ '\n' :: joinNl ls

/-- Strip leading and trailing whitespace, as JavaScript `trim()`. -/
def jsTrim (s : Str) : Str :=
  ((s.dropWhile isWsChar).reverse.dropWhile isWsChar).reverse

mutual

/-- Whitespace-run splitting, inside a token; `cur` holds the reversed
characters of the token read so far. -/
def splitWsTok : Str → Str → List Str
  | [], cur => [cur.reverse]
  | c :: cs, cur =>
    if isWsChar c then cur.reverse :: splitWsGap cs else splitWsTok cs (c :: cur)

/-- Whitespace-run splitting, inside a whitespace run. -/
def splitWsGap : Str → List Str
  | [] => [[]]
  | c :: cs => if isWsChar c then splitWsGap cs else splitWsTok cs [c]

end

/-- Split on maximal whitespace runs, as JavaScript `split(/\s+/)`,
including the empty boundary fields JavaScript produces. -/
def jsSplitWs : Str → List Str
  | [] => [[]]
  | c :: cs => if isWsChar c then [] :: splitWsGap cs else splitWsTok cs [c]

/-! ## Decimal rendering and parsing of JavaScript numbers

JavaScript numbers are modelled as exact rationals; `Number.prototype.toFixed`
is modelled by exact decimal rounding (round half away from zero on the
absolute value, per the ECMAScript ToFixed algorithm), and `parseFloat` by
exact longest-prefix decimal parsing with `none` standing for NaN. -/

/-- Decimal digit character for a digit value. -/
def digitChar : ℕ → Char
  | 0 => '0'
  | 1 => '1'
  | 2 => '2'
  | 3 => '3'
  | 4 => '4'
  | 5 => '5'
  | 6 => '6'
  | 7 => '7'
  | 8 => '8'
  | 9 => '9'
  | _ => '0'

/-- Numeric value of a decimal digit character. -/
def digitVal (c : Char) : ℕ := c.toNat - 48

/-- Decimal digit test, as the character class accepted by `parseFloat`. -/
def isDigitChar (c : Char) : Bool := 48 ≤ c.toNat && c.toNat ≤ 57

/-- Value of a most-significant-first digit string. -/
def decValue (ds : Str) : ℕ := ds.foldl (fun v c => 10 * v + digitVal c) 0

/-- Decimal rendering of a natural number, most significant digit first;
the fuel argument only bounds the recursion and is always sufficient. -/
def natToDecAux : ℕ → ℕ → Str → Str
  | 0, _, acc => acc
  | fuel + 1, n, acc =>
    if n < 10 then digitChar n :: acc
    else natToDecAux fuel (n / 10) (digitChar (n % 10) :: acc)

/-- Decimal rendering of a natural number. -/
def natToDecChars (n : ℕ) : Str := natToDecAux (n + 1) n []

/-- Exactly `k` decimal digits of `m`, most significant first, namely the
digits of `m % 10 ^ k` left-padded with zeros. -/
def fracDigitsChars : ℕ → ℕ → Str
  | 0, _ => []
  | k + 1, m => digitChar (m / 10 ^ k % 10) :: fracDigitsChars k m

/-- Scaled magnitude rounded half away from zero, the integer `n` chosen by
the ECMAScript ToFixed algorithm for `|q|` at precision `p`. -/
def jsFixedNat (q : ℚ) (p : ℕ) : ℕ := (⌊|q| * 10 ^ p + 1 / 2⌋).toNat

/-- Rendering of `Number.prototype.toFixed(p)` for the modelled rationals:
an optional minus sign, the integer digits, and for positive precision a
point followed by exactly `p` fraction digits. -/
def jsToFixed (q : ℚ) (p : ℕ) : Str :=
  if p = 0 then (if q < 0 then ['-'] else []) ++ natToDecChars (jsFixedNat q p)
  else (if q < 0 then ['-'] else []) ++ natToDecChars (jsFixedNat q p / 10 ^ p) ++
    '.' :: fracDigitsChars p (jsFixedNat q p)

/-- Exact rational denoted by the `toFixed` rendering: the value after the
rounding introduced by fixed-precision formatting. -/
def jsToFixedVal (q : ℚ) (p : ℕ) : ℚ :=
  (if q < 0 then -(jsFixedNat q p : ℚ) else (jsFixedNat q p : ℚ)) / 10 ^ p

/-- Number of characters after the decimal point of a rendered number. -/
def fracDigitCount (s : Str) : ℕ :=
  match s.dropWhile (fun c => !(c == '.')) with
  | [] => 0
  | _ :: t => t.length

/-- Exponent digits after a sign, for the optional exponent part of
`parseFloat`; an exponent marker without digits contributes factor one. -/
def parseExpTail (s : Str) : ℤ :=
  if s.head? = some '-' then
    (if s.tail.takeWhile isDigitChar = [] then 0
     else -(decValue (s.tail.takeWhile isDigitChar) : ℤ))
  else if s.head? = some '+' then (decValue (s.tail.takeWhile isDigitChar) : ℤ)
  else (decValue (s.takeWhile isDigitChar) : ℤ)

/-- Optional exponent part of `parseFloat`. -/
def parseExpVal (s : Str) : ℤ :=
  if s.head? = some 'e' ∨ s.head? = some 'E' then parseExpTail s.tail else 0

/-- Longest-prefix unsigned mantissa of `parseFloat`: digits, an optional
point, and fraction digits; `none` when no digit is present. -/
def parseMantissa (s : Str) : Option (ℚ × Str) :=
  if (s.dropWhile isDigitChar).head? = some '.' then
    (if s.takeWhile isDigitChar = [] ∧
        (s.dropWhile isDigitChar).tail.takeWhile isDigitChar = [] then none
     else some ((decValue (s.takeWhile isDigitChar) : ℚ) +
        (decValue ((s.dropWhile isDigitChar).tail.takeWhile isDigitChar) : ℚ) /
          10 ^ ((s.dropWhile isDigitChar).tail.takeWhile isDigitChar).length,
        (s.dropWhile isDigitChar).tail.dropWhile isDigitChar))
  else if s.takeWhile isDigitChar = [] then none
  else some ((decValue (s.takeWhile isDigitChar) : ℚ), s.dropWhile isDigitChar)

/-- Unsigned `parseFloat`, mantissa times optional power of ten. -/
def parseUnsignedFloat (s : Str) : Option ℚ :=
  match parseMantissa s with
  | none => none
  | some (m, rest) => some (m * (10 : ℚ) ^ parseExpVal rest)

/-- JavaScript `parseFloat` on a whitespace-free token, with `none` for NaN. -/
def parseFloatQ (s : Str) : Option ℚ :=
  if s.head? = some '-' then (parseUnsignedFloat s.tail).map (fun q => -q)
  else if s.head? = some '+' then parseUnsignedFloat s.tail
  else parseUnsignedFloat s

/-! ## Embedding of src/lib/network-utils.ts -/

/-- Section header written for coordinates. -/
def sCOORD : Str := "[COORDINATES]".data

/-- Section header written for vertices. -/
def sVERT : Str := "[VERTICES]".data

/-- Terminal section marker. -/
def sEND : Str := "[END]".data

/-- The `NetworkData` record from src/lib/types.ts; the two `Record`
fields are insertion-ordered association lists. -/
structure NetworkData where
  coordinates : List (Str × (ℚ × ℚ))
  vertices : List (Str × List (ℚ × ℚ))
  inp : Str
  name : Str
deriving DecidableEq

/-- One data line written by `updateINPWithReprojectedData`: the id and the
two fixed-precision coordinates, space separated. -/
def coordLine (p : ℕ) (id : Str) (pt : ℚ × ℚ) : Str :=
  id ++ ' ' :: jsToFixed pt.1 p ++ ' ' :: jsToFixed pt.2 p

/-- Replacement `[COORDINATES]` block appended by the serializer, empty when
the coordinate record has no keys. -/
def coordBlock (networkData : NetworkData) (p : ℕ) : List Str :=
  if networkData.coordinates = [] then []
  else ('\n' :: sCOORD) :: networkData.coordinates.map (fun e => coordLine p e.1 e.2)

/-- Replacement `[VERTICES]` block appended by the serializer, empty when
the vertex record has no keys. -/
def vertBlock (networkData : NetworkData) (p : ℕ) : List Str :=
  if networkData.vertices = [] then []
  else ('\n' :: sVERT) :: networkData.vertices.flatMap (fun e => e.2.map (fun pt => coordLine p e.1 pt))

/-- The line-filtering loop of `updateINPWithReprojectedData`: drops `[END]`
lines, keeps section headers while tracking whether the current section is
`[COORDINATES]` or `[VERTICES]`, drops lines inside those two sections, and
keeps every other line verbatim.  The source's `section` variable is only
read through the two boolean flags, which are carried directly. -/
def updateLoop : Bool → Bool → List Str → List Str
  | _, _, [] => []
  | insideC, insideV, line :: rest =>
    if jsTrim line = sEND then updateLoop insideC insideV rest
    else if (jsTrim line).head? = some '[' then
      line :: updateLoop (decide (jsTrim line = sCOORD)) (decide (jsTrim line = sVERT)) rest
    else if insideC || insideV then updateLoop insideC insideV rest
    else line :: updateLoop insideC insideV rest

/-- Serializer from `updateINPWithReprojectedData`: filters the base INP
lines, appends the regenerated coordinate and vertex sections and a final
`[END]`, and joins with newlines. -/
def updateINPWithReprojectedData (inpContent : Str) (networkData : NetworkData)
    (decimalPrecision : ℕ := 4) : Str :=
  joinNl (updateLoop false false (splitNl inpContent) ++
    coordBlock networkData decimalPrecision ++
    vertBlock networkData decimalPrecision ++
    ['\n' :: sEND])

/-- State of the `extractGeometryData` loop. -/
structure ExtractState where
  sectionName : Option Str
  coordinates : List (Str × (Option ℚ × Option ℚ))
  vertices : List (Str × List (Option ℚ × Option ℚ))
deriving DecidableEq

/-- JavaScript keyed assignment `obj[k] = v`: overwrite in place, else append. -/
def upsertA {V : Type} : List (Str × V) → Str → V → List (Str × V)
  | [], k, v => [(k, v)]
  | (k', v') :: rest, k, v =>
    if k' = k then (k', v) :: rest else (k', v') :: upsertA rest k v

/-- JavaScript `obj[k].push(v)` with `obj[k] = []` on first use: append `v`
to the key's list in place, else append a new singleton entry. -/
def appendVert {V : Type} : List (Str × List V) → Str → V → List (Str × List V)
  | [], k, v => [(k, [v])]
  | (k', vs) :: rest, k, v =>
    if k' = k then (k', vs ++ [v]) :: rest else (k', vs) :: appendVert rest k v

/-- One line of the `extractGeometryData` loop: skip blank and comment
lines, record section headers, and consume qualifying data lines of the
`[COORDINATES]` and `[VERTICES]` sections. -/
def stepExtract (st : ExtractState) (line : Str) : ExtractState :=
  if (jsTrim line).head? = some ';' ∨ jsTrim line = [] then st
  else if (jsTrim line).head? = some '[' then { st with sectionName := some (jsTrim line) }
  else if st.sectionName = some sCOORD ∧ 3 ≤ (jsSplitWs (jsTrim line)).length then
    match jsSplitWs (jsTrim line) with
    | id :: x :: y :: _ =>
      { st with coordinates := upsertA st.coordinates id (parseFloatQ x, parseFloatQ y) }
    | _ => st
  else if st.sectionName = some sVERT ∧ 3 ≤ (jsSplitWs (jsTrim line)).length then
    match jsSplitWs (jsTrim line) with
    | linkId :: x :: y :: _ =>
      { st with vertices := appendVert st.vertices linkId (parseFloatQ x, parseFloatQ y) }
    | _ => st
  else st

/-- Coordinate and vertex extraction from an INP string, from
`extractGeometryData`. -/
def extractGeometryData (inpContent : Str) :
    List (Str × (Option ℚ × Option ℚ)) × List (Str × List (Option ℚ × Option ℚ)) :=
  (((splitNl inpContent).foldl stepExtract ⟨none, [], []⟩).coordinates,
   ((splitNl inpContent).foldl stepExtract ⟨none, [], []⟩).vertices)

/-- Reprojection of a network's node coordinates and link vertices, from
`convertCoordinates`; `proj4` is the abstract external transform. -/
def convertCoordinates (proj4 : Str → Str → ℚ × ℚ → ℚ × ℚ) (networkData : NetworkData)
    (sourceProjection targetProjection : Str) : NetworkData :=
  { coordinates := networkData.coordinates.map
      (fun e => (e.1, proj4 sourceProjection targetProjection e.2)),
    vertices := networkData.vertices.map
      (fun e => (e.1, e.2.map (fun pt => proj4 sourceProjection targetProjection pt))),
    inp := networkData.inp,
    name := networkData.name }

/-- Identifier tokens that survive the INP round trip: nonempty, free of
whitespace, and not starting a comment or a section header. -/
def goodId (k : Str) : Prop :=
  k ≠ [] ∧ (∀ c ∈ k, isWsChar c = false) ∧ k.head? ≠ some ';' ∧ k.head? ≠ some '['

instance (k : Str) : Decidable (goodId k) := by
  unfold goodId; infer_instance

/-- Section flag transition of the serializer loop: a line's trimmed content
updates whether we are inside a geometry section. -/
def geomFlagStep (g : Bool) (line : Str) : Bool :=
  let t := jsTrim line
  if t = sEND then g
  else if t.head? = some '[' then decide (t = sCOORD) || decide (t = sVERT)
  else g

/-- Whether the serializer keeps a base-document line, given whether the
line sits inside a geometry section. -/
def keepLine (g : Bool) (line : Str) : Bool :=
  let t := jsTrim line
  !(decide (t = sEND)) && (decide (t.head? = some '[') || !g)

/-- Declarative description of the base-document lines the serializer
preserves: each line is paired with the geometry flag in effect before it
and kept according to `keepLine`. -/
def keptLines (lines : List Str) : List Str :=
  ((lines.zip (lines.scanl geomFlagStep false)).filter
    (fun e => keepLine e.2 e.1)).map (fun e => e.1)

/-! ## Embedding of the GeoJSON conversion of src/lib/network-utils.ts -/

/-- Target CRS of the WGS84 conversion. -/
def sWGS84 : Str := "EPSG:4326".data

/-- GeoJSON geometries; coordinates are rational pairs.  The `other`
constructor stands for runtime geometry objects outside the seven
statically typed kinds, which the source's `default` branch returns
unchanged. -/
inductive Geometry where
  | point : ℚ × ℚ → Geometry
  | lineString : List (ℚ × ℚ) → Geometry
  | polygon : List (List (ℚ × ℚ)) → Geometry
  | multiPoint : List (ℚ × ℚ) → Geometry
  | multiLineString : List (List (ℚ × ℚ)) → Geometry
  | multiPolygon : List (List (List (ℚ × ℚ))) → Geometry
  | geometryCollection : List Geometry → Geometry
  | other : Str → Geometry

mutual

/-- The `convertGeometry` switch: transform every coordinate pair to
WGS84 with the given source projection, recursing into collections. -/
def convertGeometry (proj4 : Str → Str → ℚ × ℚ → ℚ × ℚ) (sourceProjection : Str) :
    Geometry → Geometry
  | .point c => .point (proj4 sourceProjection sWGS84 c)
  | .lineString cs => .lineString (cs.map (fun c => proj4 sourceProjection sWGS84 c))
  | .polygon rings =>
    .polygon (rings.map (fun ring => ring.map (fun c => proj4 sourceProjection sWGS84 c)))
  | .multiPoint cs => .multiPoint (cs.map (fun c => proj4 sourceProjection sWGS84 c))
  | .multiLineString ls =>
    .multiLineString (ls.map (fun l => l.map (fun c => proj4 sourceProjection sWGS84 c)))
  | .multiPolygon ps =>
    .multiPolygon (ps.map (fun poly =>
      poly.map (fun ring => ring.map (fun c => proj4 sourceProjection sWGS84 c))))
  | .geometryCollection gs =>
    .geometryCollection (convertGeometryList proj4 sourceProjection gs)
  | .other t => .other t

/-- Member-geometry mapping of `convertGeometry` for collections, the
`geometries.map(...)` of the source. -/
def convertGeometryList (proj4 : Str → Str → ℚ × ℚ → ℚ × ℚ) (sourceProjection : Str) :
    List Geometry → List Geometry
  | [] => []
  | g :: gs =>
    convertGeometry proj4 sourceProjection g :: convertGeometryList proj4 sourceProjection gs

end

/-- A GeoJSON feature: an optional geometry plus an opaque payload standing
for properties, id and bbox, which the conversion carries unchanged. -/
structure GeoFeature (π : Type) where
  geometry : Option Geometry
  payload : π

/-- Feature-collection conversion from `convertGeoJsonToWGS84Generic`:
features without geometry pass through unchanged. -/
def convertGeoJsonToWGS84Generic {π : Type} (proj4 : Str → Str → ℚ × ℚ → ℚ × ℚ)
    (sourceProjection : Str) (features : List (GeoFeature π)) : List (GeoFeature π) :=
  features.map (fun f =>
    match f.geometry with
    | none => f
    | some g => { f with geometry := some (convertGeometry proj4 sourceProjection g) })

mutual

/-- Modelled from the spec: the claimed behaviour of the WGS84 conversion,
applying one and the same point transform to every coordinate pair at the
appropriate nesting depth, recursing into each member geometry of a
collection, and leaving any other geometry unchanged. -/
def mapGeometryPoints (f : ℚ × ℚ → ℚ × ℚ) : Geometry → Geometry
  | .point c => .point (f c)
  | .lineString cs => .lineString (cs.map f)
  | .polygon rings => .polygon (rings.map (fun ring => ring.map f))
  | .multiPoint cs => .multiPoint (cs.map f)
  | .multiLineString ls => .multiLineString (ls.map (fun l => l.map f))
  | .multiPolygon ps =>
    .multiPolygon (ps.map (fun poly => poly.map (fun ring => ring.map f)))
  | .geometryCollection gs => .geometryCollection (mapGeometryPointsList f gs)
  | .other t => .other t

/-- Modelled from the spec: pointwise transform of collection members. -/
def mapGeometryPointsList (f : ℚ × ℚ → ℚ × ℚ) : List Geometry → List Geometry
  | [] => []
  | g :: gs => mapGeometryPoints f g :: mapGeometryPointsList f gs

end

/-! ## Lemmas about line splitting and joining -/

theorem splitNl_ne_nil (s : Str) : splitNl s ≠ [] := by
  induction s with
  | nil => simp [splitNl]
  | cons c cs ih =>
    unfold splitNl
    by_cases hc : c = '\n'
    · simp [hc]
    · simp only [if_neg hc]
      cases h : splitNl cs with
      | nil => simp
      | cons t ts => simp

theorem splitNl_append_nl (s t : Str) :
    splitNl (s ++ '\n' :: t) = splitNl s ++ splitNl t := by
  induction s with
  | nil => simp [splitNl]
  | cons c cs ih =>
    by_cases hc : c = '\n'
    · simp [splitNl, hc, ih]
    · cases h : splitNl cs with
      | nil => exact absurd h (splitNl_ne_nil cs)
      | cons u us =>
        simp only [List.cons_append, splitNl, if_neg hc, List.append_eq]
        rw [ih, h]
        simp

theorem mem_splitNl_no_nl (s : Str) : ∀ l ∈ splitNl s, '\n' ∉ l := by
  induction s with
  | nil => intro l hl; simp [splitNl] at hl; simp [hl]
  | cons c cs ih =>
    intro l hl
    unfold splitNl at hl
    by_cases hc : c = '\n'
    · simp only [if_pos hc] at hl
      rcases List.mem_cons.mp hl with rfl | hl
      · simp
      · exact ih l hl
    · simp only [if_neg hc] at hl
      cases h : splitNl cs with
      | nil => exact absurd h (splitNl_ne_nil cs)
      | cons u us =>
        rw [h] at hl
        rcases List.mem_cons.mp hl with rfl | hl
        · intro hmem
          rcases List.mem_cons.mp hmem with rfl | hmem
          · exact hc rfl
          · exact ih u (h ▸ List.mem_cons_self u us) hmem
        · exact ih l (h ▸ List.mem_cons_of_mem u hl)

theorem splitNl_of_no_nl (s : Str) (h : '\n' ∉ s) : splitNl s = [s] := by
  induction s with
  | nil => simp [splitNl]
  | cons c cs ih =>
    have hc : c ≠ '\n' := fun hcc => h (hcc ▸ List.mem_cons_self c cs)
    have hcs : '\n' ∉ cs := fun hm => h (List.mem_cons_of_mem c hm)
    unfold splitNl
    rw [if_neg hc, ih hcs]

theorem splitNl_joinNl (L : List Str) (h : L ≠ []) :
    splitNl (joinNl L) = L.flatMap splitNl := by
  induction L with
  | nil => exact absurd rfl h
  | cons l ls ih =>
    cases ls with
    | nil => simp [joinNl, List.flatMap]
    | cons l2 ls2 =>
      have : joinNl (l :: l2 :: ls2) = l ++ '\n' :: joinNl (l2 :: ls2) := rfl
      rw [this, splitNl_append_nl, ih (by simp)]
      simp [List.flatMap]

/-! ## Lemmas about trimming and whitespace splitting -/

theorem dropWhile_eq_self_of_head (p : Char → Bool) (s : Str)
    (h : ∀ c, s.head? = some c → p c = false) : s.dropWhile p = s := by
  cases s with
  | nil => rfl
  | cons c cs => simp [List.dropWhile_cons, h c rfl]

theorem jsTrim_eq_self (s : Str)
    (h1 : ∀ c, s.head? = some c → isWsChar c = false)
    (h2 : ∀ c, s.getLast? = some c → isWsChar c = false) : jsTrim s = s := by
  unfold jsTrim
  rw [dropWhile_eq_self_of_head _ _ h1, dropWhile_eq_self_of_head, List.reverse_reverse]
  intro c hc
  exact h2 c (by rw [← List.head?_reverse]; exact hc)

theorem jsTrim_nil : jsTrim [] = [] := rfl

theorem splitWsTok_all_nonws (l : Str) (hl : ∀ c ∈ l, isWsChar c = false) :
    ∀ cur, splitWsTok l cur = [cur.reverse ++ l] := by
  induction l with
  | nil => intro cur; simp [splitWsTok]
  | cons c cs ih =>
    intro cur
    have hc : isWsChar c = false := hl c (List.mem_cons_self c cs)
    have hcs : ∀ x ∈ cs, isWsChar x = false := fun x hx => hl x (List.mem_cons_of_mem c hx)
    unfold splitWsTok
    rw [hc]
    simp only [Bool.false_eq_true, if_false, ih hcs]
    simp

theorem splitWsTok_break (l : Str) (hl : ∀ c ∈ l, isWsChar c = false)
    (w : Char) (hw : isWsChar w = true) (rest : Str) :
    ∀ cur, splitWsTok (l ++ w :: rest) cur = (cur.reverse ++ l) :: splitWsGap rest := by
  induction l with
  | nil => intro cur; simp [splitWsTok, hw]
  | cons c cs ih =>
    intro cur
    have hc : isWsChar c = false := hl c (List.mem_cons_self c cs)
    have hcs : ∀ x ∈ cs, isWsChar x = false := fun x hx => hl x (List.mem_cons_of_mem c hx)
    simp only [List.cons_append]
    unfold splitWsTok
    rw [hc]
    simp only [Bool.false_eq_true, if_false, ih hcs]
    simp

theorem splitWsGap_cons_nonws (c : Char) (hc : isWsChar c = false) (cs : Str) :
    splitWsGap (c :: cs) = splitWsTok cs [c] := by
  unfold splitWsGap
  simp [hc]

theorem jsSplitWs_three (a b c : Str)
    (ha : a ≠ []) (hb : b ≠ []) (hc : c ≠ [])
    (hwa : ∀ x ∈ a, isWsChar x = false)
    (hwb : ∀ x ∈ b, isWsChar x = false)
    (hwc : ∀ x ∈ c, isWsChar x = false) :
    jsSplitWs (a ++ ' ' :: (b ++ ' ' :: c)) = [a, b, c] := by
  cases a with
  | nil => exact absurd rfl ha
  | cons a0 as =>
    have ha0 : isWsChar a0 = false := hwa a0 (List.mem_cons_self a0 as)
    have has : ∀ x ∈ as, isWsChar x = false := fun x hx => hwa x (List.mem_cons_of_mem a0 hx)
    rw [List.cons_append]
    simp only [jsSplitWs, ha0, Bool.false_eq_true, if_false]
    rw [splitWsTok_break as has ' ' (by decide) (b ++ ' ' :: c) [a0]]
    cases b with
    | nil => exact absurd rfl hb
    | cons b0 bs =>
      have hb0 : isWsChar b0 = false := hwb b0 (List.mem_cons_self b0 bs)
      have hbs : ∀ x ∈ bs, isWsChar x = false := fun x hx => hwb x (List.mem_cons_of_mem b0 hx)
      rw [List.cons_append, splitWsGap_cons_nonws b0 hb0,
        splitWsTok_break bs hbs ' ' (by decide) c [b0]]
      cases c with
      | nil => exact absurd rfl hc
      | cons c0 cs =>
        have hc0 : isWsChar c0 = false := hwc c0 (List.mem_cons_self c0 cs)
        have hcs : ∀ x ∈ cs, isWsChar x = false := fun x hx => hwc x (List.mem_cons_of_mem c0 hx)
        rw [splitWsGap_cons_nonws c0 hc0, splitWsTok_all_nonws cs hcs [c0]]
        simp

/-! ## Lemmas about decimal rendering and parsing -/

theorem digitChar_isDigit (d : ℕ) : isDigitChar (digitChar d) = true := by
  unfold digitChar
  split <;> decide

theorem digitVal_digitChar (d : ℕ) (h : d < 10) : digitVal (digitChar d) = d := by
  interval_cases d <;> decide

theorem isDigitChar_bounds (c : Char) (h : isDigitChar c = true) :
    48 ≤ c.toNat ∧ c.toNat ≤ 57 := by
  unfold isDigitChar at h
  rcases Bool.and_eq_true_iff.mp h with ⟨h1, h2⟩
  exact ⟨of_decide_eq_true h1, of_decide_eq_true h2⟩

theorem isDigitChar_not_ws (c : Char) (h : isDigitChar c = true) :
    isWsChar c = false := by
  obtain ⟨h1, h2⟩ := isDigitChar_bounds c h
  have hne : ∀ d : Char, (48 ≤ d.toNat → d.toNat ≤ 57 → False) → (c == d) = false := by
    intro d hd
    apply beq_false_of_ne
    intro hcd
    rw [hcd] at h1 h2
    exact hd h1 h2
  unfold isWsChar
  rw [hne ' ' (by decide), hne '\t' (by decide), hne '\n' (by decide),
    hne '\r' (by decide), hne '\x0b' (by decide), hne '\x0c' (by decide),
    hne '\u00A0' (by decide)]
  rfl

theorem isDigitChar_ne (c : Char) (h : isDigitChar c = true) :
    c ≠ ';' ∧ c ≠ '[' ∧ c ≠ '.' ∧ c ≠ '-' ∧ c ≠ '+' ∧ c ≠ '\n' ∧ c ≠ 'e' ∧ c ≠ 'E' := by
  obtain ⟨h1, h2⟩ := isDigitChar_bounds c h
  refine ⟨?_, ?_, ?_, ?_, ?_, ?_, ?_, ?_⟩ <;>
    · intro hc
      rw [hc] at h1 h2
      revert h1 h2
      decide

theorem decValue_nil : decValue [] = 0 := rfl

theorem foldl_decValue (l : Str) : ∀ v : ℕ,
    l.foldl (fun a c => 10 * a + digitVal c) v = v * 10 ^ l.length + decValue l := by
  induction l with
  | nil => intro v; simp [decValue]
  | cons c cs ih =>
    intro v
    have lhs : (c :: cs).foldl (fun a c => 10 * a + digitVal c) v =
        cs.foldl (fun a c => 10 * a + digitVal c) (10 * v + digitVal c) := rfl
    have rhs : decValue (c :: cs) =
        cs.foldl (fun a c => 10 * a + digitVal c) (10 * 0 + digitVal c) := rfl
    rw [lhs, rhs, ih (10 * v + digitVal c), ih (10 * 0 + digitVal c)]
    simp [List.length_cons, pow_succ]
    ring

theorem decValue_cons (c : Char) (cs : Str) :
    decValue (c :: cs) = digitVal c * 10 ^ cs.length + decValue cs := by
  have h := foldl_decValue cs (10 * 0 + digitVal c)
  have : decValue (c :: cs) = cs.foldl (fun a c => 10 * a + digitVal c) (10 * 0 + digitVal c) := rfl
  rw [this, h]
  ring_nf

theorem natToDecAux_eval (fuel : ℕ) : ∀ n acc, n < fuel →
    decValue (natToDecAux fuel n acc) = n * 10 ^ acc.length + decValue acc := by
  induction fuel with
  | zero => intro n acc h; omega
  | succ f ih =>
    intro n acc h
    unfold natToDecAux
    by_cases hn : n < 10
    · rw [if_pos hn, decValue_cons, digitVal_digitChar n hn]
    · rw [if_neg hn]
      have hdiv : n / 10 < f := by
        have h1 : n / 10 < n := Nat.div_lt_self (by omega) (by omega)
        omega
      rw [ih (n / 10) (digitChar (n % 10) :: acc) hdiv, decValue_cons,
        digitVal_digitChar (n % 10) (Nat.mod_lt n (by omega))]
      have hexp : (digitChar (n % 10) :: acc).length = acc.length + 1 := rfl
      rw [hexp, pow_succ]
      have hn10 : 10 * (n / 10) + n % 10 = n := Nat.div_add_mod n 10
      conv_rhs => rw [← hn10]
      ring

theorem natToDecChars_value (n : ℕ) : decValue (natToDecChars n) = n := by
  unfold natToDecChars
  rw [natToDecAux_eval (n + 1) n [] (by omega)]
  simp [decValue]

theorem natToDecAux_digits (fuel : ℕ) : ∀ n acc,
    (∀ c ∈ acc, isDigitChar c = true) →
    ∀ c ∈ natToDecAux fuel n acc, isDigitChar c = true := by
  induction fuel with
  | zero => intro n acc hacc; exact hacc
  | succ f ih =>
    intro n acc hacc c hc
    unfold natToDecAux at hc
    by_cases hn : n < 10
    · rw [if_pos hn] at hc
      rcases List.mem_cons.mp hc with rfl | hc
      · exact digitChar_isDigit n
      · exact hacc c hc
    · rw [if_neg hn] at hc
      refine ih (n / 10) (digitChar (n % 10) :: acc) ?_ c hc
      intro x hx
      rcases List.mem_cons.mp hx with rfl | hx
      · exact digitChar_isDigit (n % 10)
      · exact hacc x hx

theorem natToDecChars_digits (n : ℕ) : ∀ c ∈ natToDecChars n, isDigitChar c = true :=
  natToDecAux_digits (n + 1) n [] (by intro c hc; simp at hc)

theorem natToDecAux_eq_nil (fuel : ℕ) : ∀ n acc,
    natToDecAux fuel n acc = [] → acc = [] ∧ fuel = 0 := by
  induction fuel with
  | zero => intro n acc h; exact ⟨h, rfl⟩
  | succ f ih =>
    intro n acc h
    unfold natToDecAux at h
    by_cases hn : n < 10
    · rw [if_pos hn] at h; simp at h
    · rw [if_neg hn] at h
      obtain ⟨h1, _⟩ := ih (n / 10) (digitChar (n % 10) :: acc) h
      simp at h1

theorem natToDecChars_ne_nil (n : ℕ) : natToDecChars n ≠ [] := by
  intro h
  obtain ⟨_, h2⟩ := natToDecAux_eq_nil (n + 1) n [] h
  omega

theorem fracDigitsChars_length (k : ℕ) : ∀ m, (fracDigitsChars k m).length = k := by
  induction k with
  | zero => intro m; rfl
  | succ k ih => intro m; simp [fracDigitsChars, ih]

theorem fracDigitsChars_digits (k : ℕ) : ∀ m, ∀ c ∈ fracDigitsChars k m,
    isDigitChar c = true := by
  induction k with
  | zero => intro m c hc; simp [fracDigitsChars] at hc
  | succ k ih =>
    intro m c hc
    unfold fracDigitsChars at hc
    rcases List.mem_cons.mp hc with rfl | hc
    · exact digitChar_isDigit _
    · exact ih m c hc

theorem fracDigitsChars_value (k : ℕ) : ∀ m, decValue (fracDigitsChars k m) = m % 10 ^ k := by
  induction k with
  | zero => intro m; simp [fracDigitsChars, decValue, Nat.mod_one]
  | succ k ih =>
    intro m
    unfold fracDigitsChars
    rw [decValue_cons, ih m, fracDigitsChars_length,
      digitVal_digitChar _ (Nat.mod_lt _ (by omega))]
    have : m % 10 ^ (k + 1) = m % (10 ^ k * 10) := by rw [pow_succ]
    rw [this, Nat.mod_mul]
    ring

/-! ## Lemmas about takeWhile and dropWhile on digit runs -/

theorem takeWhile_append_all (p : Char → Bool) (l : Str) (hl : ∀ c ∈ l, p c = true) :
    ∀ r, (l ++ r).takeWhile p = l ++ r.takeWhile p := by
  induction l with
  | nil => intro r; simp
  | cons c cs ih =>
    intro r
    have hc : p c = true := hl c (List.mem_cons_self c cs)
    have hcs : ∀ x ∈ cs, p x = true := fun x hx => hl x (List.mem_cons_of_mem c hx)
    simp [List.takeWhile_cons, hc, ih hcs]

theorem dropWhile_append_all (p : Char → Bool) (l : Str) (hl : ∀ c ∈ l, p c = true) :
    ∀ r, (l ++ r).dropWhile p = r.dropWhile p := by
  induction l with
  | nil => intro r; simp
  | cons c cs ih =>
    intro r
    have hc : p c = true := hl c (List.mem_cons_self c cs)
    have hcs : ∀ x ∈ cs, p x = true := fun x hx => hl x (List.mem_cons_of_mem c hx)
    simp [List.dropWhile_cons, hc, ih hcs]

theorem takeWhile_all (p : Char → Bool) (l : Str) (hl : ∀ c ∈ l, p c = true) :
    l.takeWhile p = l := by
  have h := takeWhile_append_all p l hl []
  simpa using h

theorem dropWhile_all (p : Char → Bool) (l : Str) (hl : ∀ c ∈ l, p c = true) :
    l.dropWhile p = [] := by
  have h := dropWhile_append_all p l hl []
  simpa using h

theorem takeWhile_nil_of_head (p : Char → Bool) (r : Str)
    (h : ∀ c, r.head? = some c → p c = false) : r.takeWhile p = [] := by
  cases r with
  | nil => rfl
  | cons c cs => simp [List.takeWhile_cons, h c rfl]

/-! ## Lemmas about the rendered fixed-precision numbers -/

theorem jsToFixed_chars (q : ℚ) (p : ℕ) :
    ∀ c ∈ jsToFixed q p, isDigitChar c = true ∨ c = '-' ∨ c = '.' := by
  intro c hc
  unfold jsToFixed at hc
  by_cases hp : p = 0
  · rw [if_pos hp] at hc
    rcases List.mem_append.mp hc with hc | hc
    · by_cases hq : q < 0
      · rw [if_pos hq] at hc
        right; left
        simpa using hc
      · rw [if_neg hq] at hc
        simp at hc
    · exact Or.inl (natToDecChars_digits _ c hc)
  · rw [if_neg hp] at hc
    rcases List.mem_append.mp hc with hc | hc
    · rcases List.mem_append.mp hc with hc | hc
      · by_cases hq : q < 0
        · rw [if_pos hq] at hc
          right; left
          simpa using hc
        · rw [if_neg hq] at hc
          simp at hc
      · exact Or.inl (natToDecChars_digits _ c hc)
    · rcases List.mem_cons.mp hc with rfl | hc
      · right; right; rfl
      · exact Or.inl (fracDigitsChars_digits _ _ c hc)

theorem jsToFixed_no_ws (q : ℚ) (p : ℕ) :
    ∀ c ∈ jsToFixed q p, isWsChar c = false := by
  intro c hc
  rcases jsToFixed_chars q p c hc with h | h | h
  · exact isDigitChar_not_ws c h
  · rw [h]; decide
  · rw [h]; decide

theorem jsToFixed_ne_nil (q : ℚ) (p : ℕ) : jsToFixed q p ≠ [] := by
  unfold jsToFixed
  by_cases hp : p = 0
  · rw [if_pos hp]
    simp [natToDecChars_ne_nil]
  · rw [if_neg hp]
    simp

theorem jsToFixed_head (q : ℚ) (p : ℕ) :
    ∀ c, (jsToFixed q p).head? = some c → c = '-' ∨ isDigitChar c = true := by
  intro c hc
  unfold jsToFixed at hc
  by_cases hp : p = 0
  · rw [if_pos hp] at hc
    by_cases hq : q < 0
    · rw [if_pos hq, List.singleton_append, List.head?_cons] at hc
      exact Or.inl (Option.some_inj.mp hc).symm
    · rw [if_neg hq, List.nil_append] at hc
      obtain ⟨c0, cs, h0⟩ := List.exists_cons_of_ne_nil (natToDecChars_ne_nil (jsFixedNat q p))
      rw [h0, List.head?_cons] at hc
      right
      rw [← Option.some_inj.mp hc.symm] at h0
      exact natToDecChars_digits _ c (h0 ▸ List.mem_cons_self c cs)
  · rw [if_neg hp] at hc
    by_cases hq : q < 0
    · rw [if_pos hq, List.singleton_append, List.cons_append, List.head?_cons] at hc
      exact Or.inl (Option.some_inj.mp hc).symm
    · rw [if_neg hq, List.nil_append] at hc
      obtain ⟨c0, cs, h0⟩ :=
        List.exists_cons_of_ne_nil (natToDecChars_ne_nil (jsFixedNat q p / 10 ^ p))
      rw [h0, List.cons_append, List.head?_cons] at hc
      right
      rw [← Option.some_inj.mp hc.symm] at h0
      exact natToDecChars_digits _ c (h0 ▸ List.mem_cons_self c _)

theorem jsToFixed_head_not_marker (q : ℚ) (p : ℕ) :
    (jsToFixed q p).head? ≠ some ';' ∧ (jsToFixed q p).head? ≠ some '[' := by
  constructor <;>
    · intro h
      rcases jsToFixed_head q p _ h with hc | hc
      · exact absurd hc (by decide)
      · exact absurd hc (by decide)

/-! ## Lemmas composing parseFloat with toFixed -/

theorem parseExpVal_nil : parseExpVal [] = 0 := by
  simp [parseExpVal]

theorem parseMantissa_int_frac (a p n : ℕ) :
    parseMantissa (natToDecChars a ++ '.' :: fracDigitsChars p n) =
      some ((a : ℚ) + ((n % 10 ^ p : ℕ) : ℚ) / 10 ^ p, []) := by
  have hdig := natToDecChars_digits a
  have hfdig := fracDigitsChars_digits p n
  have hdot : isDigitChar '.' = false := by decide
  have h1 : (natToDecChars a ++ '.' :: fracDigitsChars p n).takeWhile isDigitChar =
      natToDecChars a := by
    rw [takeWhile_append_all isDigitChar _ hdig]
    simp [List.takeWhile_cons, hdot]
  have h2 : (natToDecChars a ++ '.' :: fracDigitsChars p n).dropWhile isDigitChar =
      '.' :: fracDigitsChars p n := by
    rw [dropWhile_append_all isDigitChar _ hdig]
    simp [List.dropWhile_cons, hdot]
  unfold parseMantissa
  rw [h1, h2, List.head?_cons, if_pos rfl, List.tail_cons,
    takeWhile_all isDigitChar _ hfdig, dropWhile_all isDigitChar _ hfdig,
    if_neg (fun hcontra => natToDecChars_ne_nil a hcontra.1),
    natToDecChars_value, fracDigitsChars_value, fracDigitsChars_length]

theorem parseUnsignedFloat_int_frac (a p n : ℕ) :
    parseUnsignedFloat (natToDecChars a ++ '.' :: fracDigitsChars p n) =
      some ((a : ℚ) + ((n % 10 ^ p : ℕ) : ℚ) / 10 ^ p) := by
  unfold parseUnsignedFloat
  rw [parseMantissa_int_frac a p n]
  simp [parseExpVal_nil]

theorem parseUnsignedFloat_int (n : ℕ) :
    parseUnsignedFloat (natToDecChars n) = some ((n : ℕ) : ℚ) := by
  have hdig := natToDecChars_digits n
  have h1 : (natToDecChars n).takeWhile isDigitChar = natToDecChars n :=
    takeWhile_all _ _ hdig
  have h2 : (natToDecChars n).dropWhile isDigitChar = [] :=
    dropWhile_all _ _ hdig
  unfold parseUnsignedFloat parseMantissa
  rw [h1, h2, List.head?_nil, if_neg (by simp), if_neg (natToDecChars_ne_nil n),
    natToDecChars_value]
  simp [parseExpVal_nil]

theorem parseFloatQ_eq_unsigned (s : Str)
    (h : ∀ c, s.head? = some c → isDigitChar c = true) :
    parseFloatQ s = parseUnsignedFloat s := by
  unfold parseFloatQ
  cases hs : s.head? with
  | none => simp
  | some c =>
    have hne := isDigitChar_ne c (h c hs)
    rw [if_neg (fun hcontra => hne.2.2.2.1 (Option.some_inj.mp hcontra)),
      if_neg (fun hcontra => hne.2.2.2.2.1 (Option.some_inj.mp hcontra))]

theorem div_add_mod_cast (N P : ℕ) (hP : P ≠ 0) :
    ((N / P : ℕ) : ℚ) + ((N % P : ℕ) : ℚ) / P = (N : ℚ) / P := by
  have h : P * (N / P) + N % P = N := Nat.div_add_mod N P
  have hPQ : (P : ℚ) ≠ 0 := Nat.cast_ne_zero.mpr hP
  field_simp
  have h2 : ((P * (N / P) + N % P : ℕ) : ℚ) = (N : ℚ) := by exact_mod_cast congrArg Nat.cast h
  push_cast at h2
  linarith

theorem div_add_mod_cast10 (N p : ℕ) :
    ((N / 10 ^ p : ℕ) : ℚ) + ((N % 10 ^ p : ℕ) : ℚ) / (10 : ℚ) ^ p = (N : ℚ) / (10 : ℚ) ^ p := by
  have hcast : ((10 ^ p : ℕ) : ℚ) = (10 : ℚ) ^ p := by push_cast; ring
  rw [← hcast]
  exact div_add_mod_cast N (10 ^ p) (by positivity)

theorem parseFloatQ_jsToFixed (q : ℚ) (p : ℕ) :
    parseFloatQ (jsToFixed q p) = some (jsToFixedVal q p) := by
  by_cases hq : q < 0
  · have hshape : jsToFixed q p = '-' :: (if p = 0 then natToDecChars (jsFixedNat q p)
        else natToDecChars (jsFixedNat q p / 10 ^ p) ++ '.' :: fracDigitsChars p (jsFixedNat q p)) := by
      unfold jsToFixed
      by_cases hp : p = 0
      · rw [if_pos hp, if_pos hq, if_pos hp, List.singleton_append]
      · rw [if_neg hp, if_pos hq, if_neg hp, List.singleton_append, List.cons_append]
    rw [hshape]
    unfold parseFloatQ
    rw [List.head?_cons, if_pos rfl, List.tail_cons]
    by_cases hp : p = 0
    · rw [if_pos hp, parseUnsignedFloat_int]
      unfold jsToFixedVal
      rw [if_pos hq, hp]
      simp
    · rw [if_neg hp, parseUnsignedFloat_int_frac,
        div_add_mod_cast10 (jsFixedNat q p) p]
      simp [jsToFixedVal, hq, neg_div]
  · have hdigit : ∀ c, (jsToFixed q p).head? = some c → isDigitChar c = true := by
      intro c hc
      rcases jsToFixed_head q p c hc with hc' | hc'
      · exfalso
        subst hc'
        have hmem : '-' ∈ jsToFixed q p := by
          cases hj : jsToFixed q p with
          | nil => exact absurd hj (jsToFixed_ne_nil q p)
          | cons c0 cs =>
            rw [hj, List.head?_cons] at hc
            rw [← Option.some_inj.mp hc]
            exact List.mem_cons_self c0 cs
        rcases jsToFixed_chars q p '-' hmem with hdig | hdash | hdot
        · exact absurd hdig (by decide)
        · -- the sign branch is impossible without a negative value
          unfold jsToFixed at hmem
          by_cases hp : p = 0
          · rw [if_pos hp, if_neg hq, List.nil_append] at hmem
            have := natToDecChars_digits (jsFixedNat q p) '-' hmem
            exact absurd this (by decide)
          · rw [if_neg hp, if_neg hq, List.nil_append] at hmem
            rcases List.mem_append.mp hmem with hm | hm
            · have := natToDecChars_digits _ '-' hm
              exact absurd this (by decide)
            · rcases List.mem_cons.mp hm with hm | hm
              · exact absurd hm (by decide)
              · have := fracDigitsChars_digits _ _ '-' hm
                exact absurd this (by decide)
        · exact absurd hdot (by decide)
      · exact hc'
    rw [parseFloatQ_eq_unsigned _ hdigit]
    unfold jsToFixed
    by_cases hp : p = 0
    · rw [if_pos hp, if_neg hq, List.nil_append, parseUnsignedFloat_int]
      unfold jsToFixedVal
      rw [if_neg hq, hp]
      simp
    · rw [if_neg hp, if_neg hq, List.nil_append, parseUnsignedFloat_int_frac,
        div_add_mod_cast10 (jsFixedNat q p) p]
      simp [jsToFixedVal, hq]

/-! ## Lemmas locating the decimal point of a rendered number -/

theorem jsToFixed_dropWhile_dot (q : ℚ) (p : ℕ) :
    (jsToFixed q p).dropWhile (fun c => !(c == '.')) =
      if p = 0 then [] else '.' :: fracDigitsChars p (jsFixedNat q p) := by
  have hpredDigit : ∀ c, isDigitChar c = true → (!(c == '.')) = true := by
    intro c hc
    have h := (isDigitChar_ne c hc).2.2.1
    simp [h]
  have hsign : ∀ c ∈ (if q < 0 then (['-'] : Str) else []), (!(c == '.')) = true := by
    intro c hc
    by_cases hq : q < 0
    · rw [if_pos hq] at hc
      simp at hc
      rw [hc]
      decide
    · rw [if_neg hq] at hc
      simp at hc
  unfold jsToFixed
  by_cases hp : p = 0
  · rw [if_pos hp, if_pos hp]
    apply dropWhile_all
    intro c hc
    rcases List.mem_append.mp hc with hc | hc
    · exact hsign c hc
    · exact hpredDigit c (natToDecChars_digits _ c hc)
  · rw [if_neg hp, if_neg hp, List.append_assoc,
      dropWhile_append_all _ _ hsign,
      dropWhile_append_all _ _ (fun c hc => hpredDigit c (natToDecChars_digits _ c hc))]
    simp [List.dropWhile_cons]

/-! ## Claims about the serializer's numeric formatting (C8) -/

/-- C8: every numeric value written by the serializer is rendered by
`jsToFixed` at the given precision, whose output carries exactly
`decimalPrecision` digit characters after the decimal point, and the
precision argument defaults to 4 when not supplied. -/
theorem c8_fixed_precision :
    (∀ (q : ℚ) (p : ℕ), fracDigitCount (jsToFixed q p) = p) ∧
    (∀ (q : ℚ) (p : ℕ) (t : Str),
      (jsToFixed q p).dropWhile (fun c => !(c == '.')) = '.' :: t →
      t.length = p ∧ ∀ c ∈ t, isDigitChar c = true) ∧
    (∀ inpContent networkData, updateINPWithReprojectedData inpContent networkData =
      updateINPWithReprojectedData inpContent networkData 4) ∧
    (∀ p id pt, coordLine p id pt =
      id ++ ' ' :: jsToFixed pt.1 p ++ ' ' :: jsToFixed pt.2 p) := by
  refine ⟨?_, ?_, fun _ _ => rfl, fun _ _ _ => rfl⟩
  · intro q p
    unfold fracDigitCount
    rw [jsToFixed_dropWhile_dot]
    by_cases hp : p = 0
    · rw [if_pos hp, hp]
    · rw [if_neg hp]
      simp [fracDigitsChars_length]
  · intro q p t ht
    rw [jsToFixed_dropWhile_dot] at ht
    by_cases hp : p = 0
    · rw [if_pos hp] at ht
      exact absurd ht (by simp)
    · rw [if_neg hp] at ht
      have htf : t = fracDigitsChars p (jsFixedNat q p) :=
        ((List.cons.injEq _ _ _ _ ▸ ht).2).symm
      rw [htf]
      exact ⟨fracDigitsChars_length p _, fracDigitsChars_digits p _⟩

/-! ## Claim about the reprojection frame (C9) -/

/-- C9: reprojecting a network keeps the INP text and name, the coordinate
key list, and the vertex key list with per-link vertex counts; only the
numeric values change. -/
theorem c9_convert_frame (proj4 : Str → Str → ℚ × ℚ → ℚ × ℚ)
    (networkData : NetworkData) (src tgt : Str) :
    (convertCoordinates proj4 networkData src tgt).inp = networkData.inp ∧
    (convertCoordinates proj4 networkData src tgt).name = networkData.name ∧
    (convertCoordinates proj4 networkData src tgt).coordinates.map Prod.fst =
      networkData.coordinates.map Prod.fst ∧
    (convertCoordinates proj4 networkData src tgt).vertices.map Prod.fst =
      networkData.vertices.map Prod.fst ∧
    (convertCoordinates proj4 networkData src tgt).vertices.map (fun e => (e.1, e.2.length)) =
      networkData.vertices.map (fun e => (e.1, e.2.length)) := by
  refine ⟨rfl, rfl, ?_, ?_, ?_⟩ <;> simp [convertCoordinates]

/-! ## Lemmas relating the geometry conversion to the claimed pointwise map -/

mutual

theorem convertGeometry_eq_aux (proj4 : Str → Str → ℚ × ℚ → ℚ × ℚ) (src : Str) :
    ∀ g, convertGeometry proj4 src g =
      mapGeometryPoints (fun c => proj4 src sWGS84 c) g
  | .point c => rfl
  | .lineString cs => rfl
  | .polygon rings => rfl
  | .multiPoint cs => rfl
  | .multiLineString ls => rfl
  | .multiPolygon ps => rfl
  | .geometryCollection gs => by
    simp only [convertGeometry, mapGeometryPoints]
    rw [convertGeometryList_eq_aux proj4 src gs]
  | .other t => rfl

theorem convertGeometryList_eq_aux (proj4 : Str → Str → ℚ × ℚ → ℚ × ℚ) (src : Str) :
    ∀ gs, convertGeometryList proj4 src gs =
      mapGeometryPointsList (fun c => proj4 src sWGS84 c) gs
  | [] => rfl
  | g :: gs => by
    simp only [convertGeometryList, mapGeometryPointsList]
    rw [convertGeometry_eq_aux proj4 src g, convertGeometryList_eq_aux proj4 src gs]

end

/-! ## Claim about the WGS84 conversion (C6) -/

/-- C6: the geometry conversion applies one and the same point transform
(with the given source CRS and WGS84 target) to every coordinate pair at
its nesting depth, recurses into collection members with the same source
CRS, leaves other geometry kinds unchanged, and the feature-collection
conversion passes features without geometry through untouched. -/
theorem c6_wgs84_conversion {π : Type} (proj4 : Str → Str → ℚ × ℚ → ℚ × ℚ) (src : Str) :
    (∀ g, convertGeometry proj4 src g =
      mapGeometryPoints (fun c => proj4 src sWGS84 c) g) ∧
    (∀ t, convertGeometry proj4 src (Geometry.other t) = Geometry.other t) ∧
    (∀ features : List (GeoFeature π),
      convertGeoJsonToWGS84Generic proj4 src features = features.map (fun f =>
        match f.geometry with
        | none => f
        | some g =>
          { f with geometry := some (mapGeometryPoints (fun c => proj4 src sWGS84 c) g) })) := by
  refine ⟨convertGeometry_eq_aux proj4 src, fun t => rfl, ?_⟩
  intro features
  unfold convertGeoJsonToWGS84Generic
  congr 1
  funext f
  cases hf : f.geometry with
  | none => rfl
  | some g => simp [convertGeometry_eq_aux proj4 src g]

/-! ## Lemmas about keyed insertion and appending -/

theorem lookupA_upsertA_self {V : Type} (m : List (Str × V)) (k : Str) (v : V) :
    lookupA (upsertA m k v) k = some v := by
  induction m with
  | nil => simp [upsertA, lookupA]
  | cons e rest ih =>
    obtain ⟨k', v'⟩ := e
    unfold upsertA
    by_cases hk : k' = k
    · rw [if_pos hk]
      simp [lookupA, hk]
    · rw [if_neg hk]
      simp [lookupA, hk, ih]

theorem lookupA_upsertA_ne {V : Type} (m : List (Str × V)) (k : Str) (v : V)
    (k'' : Str) (hne : k'' ≠ k) :
    lookupA (upsertA m k v) k'' = lookupA m k'' := by
  induction m with
  | nil =>
    unfold upsertA lookupA
    rw [if_neg (Ne.symm hne)]
    rfl
  | cons e rest ih =>
    obtain ⟨k', v'⟩ := e
    unfold upsertA
    by_cases hk : k' = k
    · rw [if_pos hk]
      have hne2 : k' ≠ k'' := fun h => hne (h ▸ hk)
      unfold lookupA
      rw [if_neg hne2, if_neg hne2]
    · rw [if_neg hk]
      unfold lookupA
      by_cases hk2 : k' = k''
      · rw [if_pos hk2, if_pos hk2]
      · rw [if_neg hk2, if_neg hk2, ih]

theorem lookupA_appendVert_self {V : Type} (m : List (Str × List V)) (k : Str) (v : V) :
    lookupA (appendVert m k v) k = some ((lookupA m k).getD [] ++ [v]) := by
  induction m with
  | nil => simp [appendVert, lookupA]
  | cons e rest ih =>
    obtain ⟨k', vs⟩ := e
    unfold appendVert
    by_cases hk : k' = k
    · rw [if_pos hk]
      simp [lookupA, hk]
    · rw [if_neg hk]
      simp [lookupA, hk, ih]

theorem lookupA_appendVert_ne {V : Type} (m : List (Str × List V)) (k : Str) (v : V)
    (k'' : Str) (hne : k'' ≠ k) :
    lookupA (appendVert m k v) k'' = lookupA m k'' := by
  induction m with
  | nil =>
    unfold appendVert lookupA
    rw [if_neg (Ne.symm hne)]
    rfl
  | cons e rest ih =>
    obtain ⟨k', vs⟩ := e
    unfold appendVert
    by_cases hk : k' = k
    · rw [if_pos hk]
      have hne2 : k' ≠ k'' := fun h => hne (h ▸ hk)
      unfold lookupA
      rw [if_neg hne2, if_neg hne2]
    · rw [if_neg hk]
      unfold lookupA
      by_cases hk2 : k' = k''
      · rw [if_pos hk2, if_pos hk2]
      · rw [if_neg hk2, if_neg hk2, ih]

/-! ## Claim about the extractor's line handling (C10) -/

/-- C10: one step of the extractor ignores blank lines, comment lines,
data lines before any section header, and data lines with fewer than three
fields; a qualifying `[COORDINATES]` line overwrites its node's entry (so
the last occurrence wins), and a qualifying `[VERTICES]` line appends to
its link's list (so vertices appear in file order), as witnessed by the
lookup laws of `upsertA` and `appendVert`. -/
theorem c10_extractor_behaviour :
    (∀ inpContent, extractGeometryData inpContent =
      (((splitNl inpContent).foldl stepExtract ⟨none, [], []⟩).coordinates,
       ((splitNl inpContent).foldl stepExtract ⟨none, [], []⟩).vertices)) ∧
    (∀ st line, jsTrim line = [] ∨ (jsTrim line).head? = some ';' →
      stepExtract st line = st) ∧
    (∀ st line, st.sectionName = none → (jsTrim line).head? ≠ some '[' →
      stepExtract st line = st) ∧
    (∀ st line, (jsTrim line).head? ≠ some '[' →
      (jsSplitWs (jsTrim line)).length < 3 → stepExtract st line = st) ∧
    (∀ st line id x y rest, st.sectionName = some sCOORD →
      (jsTrim line).head? ≠ some ';' → (jsTrim line).head? ≠ some '[' →
      jsTrim line ≠ [] → jsSplitWs (jsTrim line) = id :: x :: y :: rest →
      stepExtract st line =
        { st with coordinates := upsertA st.coordinates id (parseFloatQ x, parseFloatQ y) }) ∧
    (∀ st line linkId x y rest, st.sectionName = some sVERT →
      (jsTrim line).head? ≠ some ';' → (jsTrim line).head? ≠ some '[' →
      jsTrim line ≠ [] → jsSplitWs (jsTrim line) = linkId :: x :: y :: rest →
      stepExtract st line =
        { st with vertices := appendVert st.vertices linkId (parseFloatQ x, parseFloatQ y) }) ∧
    (∀ (m : List (Str × (Option ℚ × Option ℚ))) k v,
      lookupA (upsertA m k v) k = some v ∧
      ∀ k', k' ≠ k → lookupA (upsertA m k v) k' = lookupA m k') ∧
    (∀ (m : List (Str × List (Option ℚ × Option ℚ))) k v,
      lookupA (appendVert m k v) k = some ((lookupA m k).getD [] ++ [v]) ∧
      ∀ k', k' ≠ k → lookupA (appendVert m k v) k' = lookupA m k') := by
  refine ⟨fun _ => rfl, ?_, ?_, ?_, ?_, ?_,
    fun m k v => ⟨lookupA_upsertA_self m k v, fun k' h => lookupA_upsertA_ne m k v k' h⟩,
    fun m k v => ⟨lookupA_appendVert_self m k v, fun k' h => lookupA_appendVert_ne m k v k' h⟩⟩
  · intro st line h
    unfold stepExtract
    rw [if_pos]
    rcases h with h | h
    · exact Or.inr h
    · exact Or.inl h
  · intro st line hsec hhead
    unfold stepExtract
    by_cases hbc : (jsTrim line).head? = some ';' ∨ jsTrim line = []
    · rw [if_pos hbc]
    · rw [if_neg hbc, if_neg hhead, if_neg, if_neg]
      · intro hcontra
        rw [hsec] at hcontra
        exact Option.noConfusion hcontra.1
      · intro hcontra
        rw [hsec] at hcontra
        exact Option.noConfusion hcontra.1
  · intro st line hhead hlen
    unfold stepExtract
    by_cases hbc : (jsTrim line).head? = some ';' ∨ jsTrim line = []
    · rw [if_pos hbc]
    · rw [if_neg hbc, if_neg hhead, if_neg (fun hcontra => absurd hcontra.2 (by omega)),
        if_neg (fun hcontra => absurd hcontra.2 (by omega))]
  · intro st line id x y rest hsec hc1 hc2 hc3 hparts
    unfold stepExtract
    rw [if_neg (fun hcontra => hcontra.elim hc1 hc3), if_neg hc2, if_pos, hparts]
    rw [hsec, hparts]
    simp
  · intro st line linkId x y rest hsec hc1 hc2 hc3 hparts
    unfold stepExtract
    rw [if_neg (fun hcontra => hcontra.elim hc1 hc3), if_neg hc2,
      if_neg (fun hcontra => by rw [hsec] at hcontra; exact absurd hcontra.1 (by decide)),
      if_pos, hparts]
    rw [hsec, hparts]
    simp

/-- C10 witness: the step behaviour at concrete states and lines, one
instance per hypothesis-bearing conjunct. -/
theorem c10_extractor_behaviour_witness :
    (stepExtract ⟨some sCOORD, [], []⟩ ("; note".data) = ⟨some sCOORD, [], []⟩) ∧
    (stepExtract ⟨none, [], []⟩ ("N1 1 2".data) = ⟨none, [], []⟩) ∧
    (stepExtract ⟨some sCOORD, [], []⟩ ("N1 1".data) = ⟨some sCOORD, [], []⟩) ∧
    (stepExtract ⟨some sCOORD, [], []⟩ ("N1 1 2".data) =
      ⟨some sCOORD,
        upsertA [] ("N1".data) (parseFloatQ ("1".data), parseFloatQ ("2".data)), []⟩) ∧
    (stepExtract ⟨some sVERT, [], []⟩ ("L1 3 4".data) =
      ⟨some sVERT, [],
        appendVert [] ("L1".data) (parseFloatQ ("3".data), parseFloatQ ("4".data))⟩) ∧
    (lookupA (upsertA ([(("N1".data : Str), ((some 1, some 2) : Option ℚ × Option ℚ))])
      ("N1".data) (some 5, some 6)) ("N1".data) = some (some 5, some 6)) := by
  refine ⟨?_, ?_, ?_, ?_, ?_, ?_⟩
  · exact c10_extractor_behaviour.2.1 _ _ (Or.inr (by decide))
  · exact c10_extractor_behaviour.2.2.1 _ _ rfl (by decide)
  · exact c10_extractor_behaviour.2.2.2.1 _ _ (by decide) (by decide)
  · exact c10_extractor_behaviour.2.2.2.2.1 _ ("N1 1 2".data) ("N1".data) ("1".data)
      ("2".data) [] rfl (by decide) (by decide) (by decide) (by decide)
  · exact c10_extractor_behaviour.2.2.2.2.2.1 _ ("L1 3 4".data) ("L1".data) ("3".data)
      ("4".data) [] rfl (by decide) (by decide) (by decide) (by decide)
  · exact (c10_extractor_behaviour.2.2.2.2.2.2.1 _ _ _).1

/-! ## Lemmas characterising the serializer's line filtering -/

theorem updateLoop_eq_filter (lines : List Str) : ∀ c v : Bool,
    updateLoop c v lines =
      ((lines.zip (lines.scanl geomFlagStep (c || v))).filter
        (fun e => keepLine e.2 e.1)).map (fun e => e.1) := by
  induction lines with
  | nil => intro c v; rfl
  | cons line rest ih =>
    intro c v
    rw [List.scanl_cons, List.singleton_append, List.zip_cons_cons, List.filter_cons]
    unfold updateLoop
    by_cases h1 : jsTrim line = sEND
    · have hk : keepLine (c || v) line = false := by
        unfold keepLine
        simp [h1]
      have hf : geomFlagStep (c || v) line = (c || v) := by
        unfold geomFlagStep
        rw [if_pos h1]
      rw [if_pos h1, hk, ih c v, hf]
      simp
    · by_cases h2 : (jsTrim line).head? = some '['
      · have hk : keepLine (c || v) line = true := by
          unfold keepLine
          simp [h1, h2]
        have hf : geomFlagStep (c || v) line =
            (decide (jsTrim line = sCOORD) || decide (jsTrim line = sVERT)) := by
          unfold geomFlagStep
          rw [if_neg h1, if_pos h2]
        rw [if_neg h1, if_pos h2, hk,
          ih (decide (jsTrim line = sCOORD)) (decide (jsTrim line = sVERT)), hf]
        simp
      · have hk : keepLine (c || v) line = !(c || v) := by
          unfold keepLine
          simp [h1, h2]
        have hf : geomFlagStep (c || v) line = (c || v) := by
          unfold geomFlagStep
          rw [if_neg h1, if_neg h2]
        rw [if_neg h1, if_neg h2, hk, hf]
        by_cases h3 : (c || v) = true
        · rw [if_pos h3, ih c v, h3]
          simp
        · rw [if_neg h3, ih c v]
          have h3f : (c || v) = false := by
            revert h3
            cases (c || v) <;> simp
          rw [h3f]
          simp

theorem keptLines_eq_updateLoop (lines : List Str) :
    updateLoop false false lines = keptLines lines := by
  unfold keptLines
  rw [updateLoop_eq_filter lines false false]
  rfl

theorem mem_updateLoop (lines : List Str) : ∀ c v l, l ∈ updateLoop c v lines → l ∈ lines := by
  induction lines with
  | nil => intro c v l h; exact absurd h (by simp [updateLoop])
  | cons line rest ih =>
    intro c v l h
    unfold updateLoop at h
    by_cases h1 : jsTrim line = sEND
    · rw [if_pos h1] at h
      exact List.mem_cons_of_mem line (ih c v l h)
    · by_cases h2 : (jsTrim line).head? = some '['
      · rw [if_neg h1, if_pos h2] at h
        rcases List.mem_cons.mp h with rfl | h
        · exact List.mem_cons_self l rest
        · exact List.mem_cons_of_mem line (ih _ _ l h)
      · rw [if_neg h1, if_neg h2] at h
        by_cases h3 : (c || v) = true
        · rw [if_pos h3] at h
          exact List.mem_cons_of_mem line (ih c v l h)
        · rw [if_neg h3] at h
          rcases List.mem_cons.mp h with rfl | h
          · exact List.mem_cons_self l rest
          · exact List.mem_cons_of_mem line (ih c v l h)

theorem flatMap_splitNl_id (L : List Str) (h : ∀ l ∈ L, '\n' ∉ l) :
    L.flatMap splitNl = L := by
  induction L with
  | nil => rfl
  | cons l ls ih =>
    rw [List.flatMap_cons, splitNl_of_no_nl l (h l (List.mem_cons_self l ls)),
      ih (fun x hx => h x (List.mem_cons_of_mem l hx))]
    rfl

/-! ## Claim about the serializer's frame on the base document (C2) -/

/-- C2 counterexample: a base document with a non-trailing `[END]` line
between ordinary sections loses that line, so the non-geometry lines are
not preserved in order; the exception for a trailing `[END]` does not
cover it. -/
theorem c2_sections_counterexample :
    (∀ l ∈ splitNl ("[OPTIONS]\nA\n[END]\nB".data), jsTrim l ≠ sCOORD ∧ jsTrim l ≠ sVERT) ∧
    (splitNl ("[OPTIONS]\nA\n[END]\nB".data)).getLast? ≠ some sEND ∧
    ¬ List.Sublist (splitNl ("[OPTIONS]\nA\n[END]\nB".data))
        (splitNl (updateINPWithReprojectedData ("[OPTIONS]\nA\n[END]\nB".data)
          ⟨[], [], [], []⟩ 4)) := by
  decide

/-- C2 amended: the serializer's output lines are exactly the base lines
kept by `keptLines` (every line except those whose trimmed content is
`[END]`, wherever they appear, and the bodies of the `[COORDINATES]` and
`[VERTICES]` sections, whose headers are kept), in their original order
and byte-identical, followed by the regenerated geometry blocks and a
final blank line and `[END]` marker. -/
theorem c2_sections_preserved (inpContent : Str) (networkData : NetworkData) (p : ℕ) :
    splitNl (updateINPWithReprojectedData inpContent networkData p) =
      keptLines (splitNl inpContent) ++
        (coordBlock networkData p ++ vertBlock networkData p ++
          ['\n' :: sEND]).flatMap splitNl := by
  unfold updateINPWithReprojectedData
  rw [splitNl_joinNl _ (by simp)]
  simp only [List.flatMap_append]
  rw [flatMap_splitNl_id (updateLoop false false (splitNl inpContent))
      (fun l hl => mem_splitNl_no_nl inpContent l
        (mem_updateLoop (splitNl inpContent) false false l hl)),
    keptLines_eq_updateLoop]
  simp [List.append_assoc]

/-! ## Lemmas about folding fresh entries into the keyed maps -/

theorem lookupA_nil {V : Type} (k : Str) : lookupA ([] : List (Str × V)) k = none := rfl

theorem lookupA_append_none {V : Type} (m m' : List (Str × V)) (k : Str)
    (h : lookupA m k = none) : lookupA (m ++ m') k = lookupA m' k := by
  induction m with
  | nil => rfl
  | cons e rest ih =>
    obtain ⟨k', v'⟩ := e
    simp only [lookupA] at h
    rw [List.cons_append]
    simp only [lookupA]
    by_cases hk : k' = k
    · rw [if_pos hk] at h
      exact absurd h (by simp)
    · rw [if_neg hk] at h ⊢
      exact ih h

theorem lookupA_singleton_ne {V : Type} (l k : Str) (x : V) (h : k ≠ l) :
    lookupA [(l, x)] k = none := by
  simp only [lookupA]
  rw [if_neg (fun hc => h hc.symm)]

theorem upsertA_not_mem {V : Type} (m : List (Str × V)) (k : Str) (v : V)
    (h : lookupA m k = none) : upsertA m k v = m ++ [(k, v)] := by
  induction m with
  | nil => rfl
  | cons e rest ih =>
    obtain ⟨k', v'⟩ := e
    simp only [lookupA] at h
    simp only [upsertA]
    by_cases hk : k' = k
    · rw [if_pos hk] at h
      exact absurd h (by simp)
    · rw [if_neg hk] at h ⊢
      rw [ih h, List.cons_append]

theorem foldl_upsertA_fresh {V : Type} (entries : List (Str × V)) : ∀ m : List (Str × V),
    (entries.map Prod.fst).Nodup → (∀ e ∈ entries, lookupA m e.1 = none) →
    entries.foldl (fun acc e => upsertA acc e.1 e.2) m = m ++ entries := by
  induction entries with
  | nil => intro m _ _; simp
  | cons e es ih =>
    intro m hnd hfresh
    rw [List.map_cons, List.nodup_cons] at hnd
    have hfresh2 : ∀ x ∈ es, lookupA (m ++ [(e.1, e.2)]) x.1 = none := by
      intro x hx
      rw [lookupA_append_none _ _ _ (hfresh x (List.mem_cons_of_mem e hx))]
      exact lookupA_singleton_ne e.1 x.1 e.2
        (fun hcontra => hnd.1 (hcontra ▸ List.mem_map_of_mem Prod.fst hx))
    rw [List.foldl_cons, upsertA_not_mem m e.1 e.2 (hfresh e (List.mem_cons_self e es)),
      ih (m ++ [(e.1, e.2)]) hnd.2 hfresh2]
    simp

theorem appendVert_not_mem {V : Type} (m : List (Str × List V)) (l : Str) (v : V)
    (h : lookupA m l = none) : appendVert m l v = m ++ [(l, [v])] := by
  induction m with
  | nil => rfl
  | cons e rest ih =>
    obtain ⟨k', vs⟩ := e
    simp only [lookupA] at h
    simp only [appendVert]
    by_cases hk : k' = l
    · rw [if_pos hk] at h
      exact absurd h (by simp)
    · rw [if_neg hk] at h ⊢
      rw [ih h, List.cons_append]

theorem appendVert_at_last {V : Type} (m : List (Str × List V)) (l : Str) (acc : List V)
    (v : V) (h : lookupA m l = none) :
    appendVert (m ++ [(l, acc)]) l v = m ++ [(l, acc ++ [v])] := by
  induction m with
  | nil =>
    rw [List.nil_append, List.nil_append]
    simp [appendVert]
  | cons e rest ih =>
    obtain ⟨k', vs⟩ := e
    simp only [lookupA] at h
    by_cases hk : k' = l
    · rw [if_pos hk] at h
      exact absurd h (by simp)
    · rw [if_neg hk] at h
      rw [List.cons_append, List.cons_append]
      simp only [appendVert]
      rw [if_neg hk, ih h]

theorem foldl_appendVert_from {V : Type} (vs : List V) (l : Str) :
    ∀ (m : List (Str × List V)) (acc : List V), lookupA m l = none →
    vs.foldl (fun a v => appendVert a l v) (m ++ [(l, acc)]) = m ++ [(l, acc ++ vs)] := by
  induction vs with
  | nil => intro m acc _; simp
  | cons v vs' ih =>
    intro m acc h
    rw [List.foldl_cons, appendVert_at_last m l acc v h, ih m (acc ++ [v]) h]
    simp

theorem foldl_appendVert_fresh {V : Type} (vs : List V) (l : Str)
    (m : List (Str × List V)) (h : lookupA m l = none) (hvs : vs ≠ []) :
    vs.foldl (fun a v => appendVert a l v) m = m ++ [(l, vs)] := by
  cases vs with
  | nil => exact absurd rfl hvs
  | cons v vs' =>
    rw [List.foldl_cons, appendVert_not_mem m l v h, foldl_appendVert_from vs' l m [v] h]
    simp

/-! ## Lemmas about running the extractor over the serializer's output -/

theorem foldl_stepExtract_updateLoop (lines : List Str) : ∀ (c v : Bool) (st : ExtractState),
    ((st.sectionName = some sCOORD) ↔ c = true) →
    ((st.sectionName = some sVERT) ↔ v = true) →
    ∃ s', (updateLoop c v lines).foldl stepExtract st =
      { sectionName := s', coordinates := st.coordinates, vertices := st.vertices } := by
  induction lines with
  | nil =>
    intro c v st h1 h2
    exact ⟨st.sectionName, rfl⟩
  | cons line rest ih =>
    intro c v st h1 h2
    unfold updateLoop
    by_cases hEnd : jsTrim line = sEND
    · rw [if_pos hEnd]
      exact ih c v st h1 h2
    · by_cases hHead : (jsTrim line).head? = some '['
      · rw [if_neg hEnd, if_pos hHead, List.foldl_cons]
        have hstep : stepExtract st line = { st with sectionName := some (jsTrim line) } := by
          unfold stepExtract
          rw [if_neg, if_pos hHead]
          intro hcontra
          rcases hcontra with hc | hc
          · have := hHead.symm.trans hc
            exact absurd (Option.some_inj.mp this) (by decide)
          · rw [hc] at hHead
            exact absurd hHead (by simp)
        rw [hstep]
        refine ih _ _ _ ?_ ?_ <;> simp
      · rw [if_neg hEnd, if_neg hHead]
        by_cases hin : (c || v) = true
        · rw [if_pos hin]
          exact ih c v st h1 h2
        · rw [if_neg hin, List.foldl_cons]
          have hcf : c = false := by
            revert hin; cases c <;> simp
          have hvf : v = false := by
            revert hin; cases c <;> cases v <;> simp
          have hstep : stepExtract st line = st := by
            unfold stepExtract
            by_cases hbc : (jsTrim line).head? = some ';' ∨ jsTrim line = []
            · rw [if_pos hbc]
            · rw [if_neg hbc, if_neg hHead, if_neg, if_neg]
              · intro hcontra
                have := h2.mp hcontra.1
                rw [hvf] at this
                exact Bool.noConfusion this
              · intro hcontra
                have := h1.mp hcontra.1
                rw [hcf] at this
                exact Bool.noConfusion this
          rw [hstep]
          exact ih c v st h1 h2

/-! ## Lemmas about the serializer's data lines under the extractor -/

theorem coordLine_assoc (p : ℕ) (id : Str) (pt : ℚ × ℚ) :
    coordLine p id pt = id ++ ' ' :: (jsToFixed pt.1 p ++ ' ' :: jsToFixed pt.2 p) := by
  unfold coordLine
  rw [List.append_assoc, List.cons_append]

theorem coordLine_ne_nil (p : ℕ) (id : Str) (pt : ℚ × ℚ) (hid : id ≠ []) :
    coordLine p id pt ≠ [] := by
  rw [coordLine_assoc]
  simp [hid]

theorem coordLine_head (p : ℕ) (id : Str) (pt : ℚ × ℚ) (hid : id ≠ []) :
    (coordLine p id pt).head? = id.head? := by
  rw [coordLine_assoc]
  exact List.head?_append_of_ne_nil id hid

theorem coordLine_no_nl (p : ℕ) (id : Str) (pt : ℚ × ℚ)
    (hw : ∀ c ∈ id, isWsChar c = false) : '\n' ∉ coordLine p id pt := by
  rw [coordLine_assoc]
  intro hmem
  rcases List.mem_append.mp hmem with hm | hm
  · exact absurd (hw _ hm) (by decide)
  · rcases List.mem_cons.mp hm with hm | hm
    · exact absurd hm (by decide)
    · rcases List.mem_append.mp hm with hm | hm
      · exact absurd (jsToFixed_no_ws pt.1 p _ hm) (by decide)
      · rcases List.mem_cons.mp hm with hm | hm
        · exact absurd hm (by decide)
        · exact absurd (jsToFixed_no_ws pt.2 p _ hm) (by decide)

theorem jsTrim_coordLine (p : ℕ) (id : Str) (pt : ℚ × ℚ)
    (hid : id ≠ []) (hw : ∀ c ∈ id, isWsChar c = false) :
    jsTrim (coordLine p id pt) = coordLine p id pt := by
  apply jsTrim_eq_self
  · intro c hc
    rw [coordLine_head p id pt hid] at hc
    cases id with
    | nil => exact absurd rfl hid
    | cons c0 id' =>
      rw [List.head?_cons] at hc
      exact (Option.some_inj.mp hc) ▸ hw c0 (List.mem_cons_self c0 id')
  · intro c hc
    rw [coordLine_assoc,
      List.getLast?_append_of_ne_nil id (by simp),
      show (' ' :: (jsToFixed pt.1 p ++ ' ' :: jsToFixed pt.2 p)) =
        [' '] ++ (jsToFixed pt.1 p ++ ' ' :: jsToFixed pt.2 p) from rfl,
      List.getLast?_append_of_ne_nil [' '] (by simp),
      List.getLast?_append_of_ne_nil (jsToFixed pt.1 p) (by simp),
      show (' ' :: jsToFixed pt.2 p) = [' '] ++ jsToFixed pt.2 p from rfl,
      List.getLast?_append_of_ne_nil [' '] (jsToFixed_ne_nil pt.2 p)] at hc
    exact jsToFixed_no_ws pt.2 p c (List.mem_of_mem_getLast? hc)

theorem jsSplitWs_coordLine (p : ℕ) (id : Str) (pt : ℚ × ℚ)
    (hid : id ≠ []) (hw : ∀ c ∈ id, isWsChar c = false) :
    jsSplitWs (coordLine p id pt) = [id, jsToFixed pt.1 p, jsToFixed pt.2 p] := by
  rw [coordLine_assoc]
  exact jsSplitWs_three id (jsToFixed pt.1 p) (jsToFixed pt.2 p) hid
    (jsToFixed_ne_nil _ _) (jsToFixed_ne_nil _ _) hw
    (jsToFixed_no_ws _ _) (jsToFixed_no_ws _ _)

theorem stepExtract_coordLine (st : ExtractState) (p : ℕ) (id : Str) (pt : ℚ × ℚ)
    (hsec : st.sectionName = some sCOORD) (hid : goodId id) :
    stepExtract st (coordLine p id pt) =
      { st with coordinates := (upsertA st.coordinates id
          ((some (jsToFixedVal pt.1 p), some (jsToFixedVal pt.2 p)))) } := by
  obtain ⟨hne, hw, hsemi, hbr⟩ := hid
  have htrim := jsTrim_coordLine p id pt hne hw
  have hsplit := jsSplitWs_coordLine p id pt hne hw
  have hhead := coordLine_head p id pt hne
  unfold stepExtract
  rw [htrim, hsplit, hhead]
  rw [if_neg (fun hcontra => hcontra.elim (fun h => hsemi h)
      (fun h => coordLine_ne_nil p id pt hne h)),
    if_neg hbr, if_pos ⟨hsec, by simp⟩]
  show ({ st with coordinates := (upsertA st.coordinates id
    ((parseFloatQ (jsToFixed pt.1 p), parseFloatQ (jsToFixed pt.2 p)))) } : ExtractState) = _
  rw [parseFloatQ_jsToFixed, parseFloatQ_jsToFixed]

theorem stepExtract_vertLine (st : ExtractState) (p : ℕ) (id : Str) (pt : ℚ × ℚ)
    (hsec : st.sectionName = some sVERT) (hid : goodId id) :
    stepExtract st (coordLine p id pt) =
      { st with vertices := (appendVert st.vertices id
          ((some (jsToFixedVal pt.1 p), some (jsToFixedVal pt.2 p)))) } := by
  obtain ⟨hne, hw, hsemi, hbr⟩ := hid
  have htrim := jsTrim_coordLine p id pt hne hw
  have hsplit := jsSplitWs_coordLine p id pt hne hw
  have hhead := coordLine_head p id pt hne
  unfold stepExtract
  rw [htrim, hsplit, hhead]
  rw [if_neg (fun hcontra => hcontra.elim (fun h => hsemi h)
      (fun h => coordLine_ne_nil p id pt hne h)),
    if_neg hbr,
    if_neg (fun hcontra => by rw [hsec] at hcontra; exact absurd hcontra.1 (by decide)),
    if_pos ⟨hsec, by simp⟩]
  show ({ st with vertices := (appendVert st.vertices id
    ((parseFloatQ (jsToFixed pt.1 p), parseFloatQ (jsToFixed pt.2 p)))) } : ExtractState) = _
  rw [parseFloatQ_jsToFixed, parseFloatQ_jsToFixed]

theorem stepExtract_blank (st : ExtractState) : stepExtract st [] = st := by
  unfold stepExtract
  rw [if_pos (Or.inr jsTrim_nil)]

theorem stepExtract_header (st : ExtractState) (h : Str)
    (htrim : jsTrim h = h) (hhead : h.head? = some '[') :
    stepExtract st h = { st with sectionName := some h } := by
  unfold stepExtract
  rw [htrim]
  rw [if_neg, if_pos hhead]
  intro hcontra
  rcases hcontra with hc | hc
  · have hsc := hhead.symm.trans hc
    exact absurd (Option.some_inj.mp hsc) (by decide)
  · rw [hc] at hhead
    exact absurd hhead (by simp)

theorem foldl_stepExtract_coordEntries (entries : List (Str × (ℚ × ℚ))) (p : ℕ) :
    ∀ st : ExtractState, st.sectionName = some sCOORD →
    (∀ e ∈ entries, goodId e.1) →
    (entries.map (fun e => coordLine p e.1 e.2)).foldl stepExtract st =
      { st with coordinates :=
        ((entries.map (fun e =>
          (e.1, (some (jsToFixedVal e.2.1 p), some (jsToFixedVal e.2.2 p))))).foldl
          (fun acc e => upsertA acc e.1 e.2) st.coordinates) } := by
  induction entries with
  | nil => intro st hsec hgood; rfl
  | cons e es ih =>
    intro st hsec hgood
    rw [List.map_cons, List.foldl_cons,
      stepExtract_coordLine st p e.1 e.2 hsec (hgood e (List.mem_cons_self e es)),
      ih ({ st with coordinates := (upsertA st.coordinates e.1
          ((some (jsToFixedVal e.2.1 p), some (jsToFixedVal e.2.2 p)))) }) hsec
        (fun x hx => hgood x (List.mem_cons_of_mem e hx)),
      List.map_cons, List.foldl_cons]

theorem foldl_stepExtract_vertPts (pts : List (ℚ × ℚ)) (p : ℕ) (l : Str) (hid : goodId l) :
    ∀ st : ExtractState, st.sectionName = some sVERT →
    (pts.map (fun pt => coordLine p l pt)).foldl stepExtract st =
      { st with vertices :=
        ((pts.map (fun pt => (some (jsToFixedVal pt.1 p), some (jsToFixedVal pt.2 p)))).foldl
          (fun acc v => appendVert acc l v) st.vertices) } := by
  induction pts with
  | nil => intro st hsec; rfl
  | cons pt pts' ih =>
    intro st hsec
    rw [List.map_cons, List.foldl_cons,
      stepExtract_vertLine st p l pt hsec hid,
      ih ({ st with vertices := (appendVert st.vertices l
          ((some (jsToFixedVal pt.1 p), some (jsToFixedVal pt.2 p)))) }) hsec,
      List.map_cons, List.foldl_cons]

set_option maxHeartbeats 1000000 in
theorem foldl_stepExtract_vertEntries (entries : List (Str × List (ℚ × ℚ))) (p : ℕ) :
    ∀ st : ExtractState, st.sectionName = some sVERT →
    (∀ e ∈ entries, goodId e.1) → (entries.map Prod.fst).Nodup →
    (∀ e ∈ entries, lookupA st.vertices e.1 = none) → (∀ e ∈ entries, e.2 ≠ []) →
    (entries.flatMap (fun e => e.2.map (fun pt => coordLine p e.1 pt))).foldl stepExtract st =
      { st with vertices := (st.vertices ++ entries.map (fun e =>
          (e.1, e.2.map (fun pt => (some (jsToFixedVal pt.1 p), some (jsToFixedVal pt.2 p)))))) } := by
  induction entries with
  | nil => intro st hsec _ _ _ _; simp [List.foldl_nil]
  | cons e es ih =>
    intro st hsec hgood hnd hfresh hnonempty
    rw [List.map_cons, List.nodup_cons] at hnd
    have hval : (e.2.map (fun pt => (some (jsToFixedVal pt.1 p), some (jsToFixedVal pt.2 p))) :
        List (Option ℚ × Option ℚ)) ≠ [] := by
      simpa using hnonempty e (List.mem_cons_self e es)
    have hstep1 := foldl_stepExtract_vertPts e.2 p e.1 (hgood e (List.mem_cons_self e es)) st hsec
    have hfold := foldl_appendVert_fresh
      (e.2.map (fun pt => (some (jsToFixedVal pt.1 p), some (jsToFixedVal pt.2 p))))
      e.1 st.vertices (hfresh e (List.mem_cons_self e es)) hval
    have hfresh2 : ∀ x ∈ es, lookupA (st.vertices ++
        [(e.1, e.2.map (fun pt => (some (jsToFixedVal pt.1 p), some (jsToFixedVal pt.2 p))))])
        x.1 = none := by
      intro x hx
      rw [lookupA_append_none _ _ _ (hfresh x (List.mem_cons_of_mem e hx))]
      exact lookupA_singleton_ne e.1 x.1 _
        (fun hcontra => hnd.1 (hcontra ▸ List.mem_map_of_mem Prod.fst hx))
    rw [List.flatMap_cons, List.foldl_append, hstep1, hfold,
      ih ({ st with vertices := (st.vertices ++
          [(e.1, e.2.map (fun pt => (some (jsToFixedVal pt.1 p), some (jsToFixedVal pt.2 p))))]) })
        hsec (fun x hx => hgood x (List.mem_cons_of_mem e hx)) hnd.2 hfresh2
        (fun x hx => hnonempty x (List.mem_cons_of_mem e hx))]
    simp

/-! ## Lemmas running the extractor over the regenerated blocks -/

theorem splitNl_nl_cons (X : Str) (h : '\n' ∉ X) : splitNl ('\n' :: X) = [[], X] := by
  unfold splitNl
  rw [if_pos rfl, splitNl_of_no_nl X h]

theorem foldl_stepExtract_coordBlock (networkData : NetworkData) (p : ℕ)
    (hgoodc : ∀ e ∈ networkData.coordinates, goodId e.1)
    (hcd : (networkData.coordinates.map Prod.fst).Nodup) :
    ∀ s1 : Option Str,
    ((coordBlock networkData p).flatMap splitNl).foldl stepExtract ⟨s1, [], []⟩ =
      ⟨(if networkData.coordinates = [] then s1 else some sCOORD),
       networkData.coordinates.map (fun e =>
         (e.1, (some (jsToFixedVal e.2.1 p), some (jsToFixedVal e.2.2 p)))), []⟩ := by
  intro s1
  by_cases hco : networkData.coordinates = []
  · rw [coordBlock, if_pos hco, if_pos hco, hco]
    rfl
  · rw [coordBlock, if_neg hco, if_neg hco]
    rw [List.flatMap_cons, splitNl_nl_cons sCOORD (by decide),
      flatMap_splitNl_id _ (fun l hl => by
        obtain ⟨e, he, hrfl⟩ := List.mem_map.mp hl
        rw [← hrfl]
        exact coordLine_no_nl p e.1 e.2 (hgoodc e he).2.1)]
    rw [show ([[], sCOORD] : List Str) ++
        networkData.coordinates.map (fun e => coordLine p e.1 e.2) =
        [] :: sCOORD :: networkData.coordinates.map (fun e => coordLine p e.1 e.2) from rfl,
      List.foldl_cons, stepExtract_blank, List.foldl_cons,
      stepExtract_header _ sCOORD (by decide) (by decide),
      foldl_stepExtract_coordEntries networkData.coordinates p
        ⟨some sCOORD, [], []⟩ rfl hgoodc,
      foldl_upsertA_fresh _ [] (by
        rw [show (networkData.coordinates.map (fun e =>
            (e.1, (some (jsToFixedVal e.2.1 p), some (jsToFixedVal e.2.2 p))))).map Prod.fst =
            networkData.coordinates.map Prod.fst from by simp]
        exact hcd)
        (fun e _ => rfl)]
    rfl

theorem foldl_stepExtract_vertBlock (networkData : NetworkData) (p : ℕ)
    (hgoodv : ∀ e ∈ networkData.vertices, goodId e.1)
    (hvd : (networkData.vertices.map Prod.fst).Nodup)
    (hvne : ∀ e ∈ networkData.vertices, e.2 ≠ []) :
    ∀ (s1 : Option Str) (coords : List (Str × (Option ℚ × Option ℚ))),
    ((vertBlock networkData p).flatMap splitNl).foldl stepExtract ⟨s1, coords, []⟩ =
      ⟨(if networkData.vertices = [] then s1 else some sVERT), coords,
       networkData.vertices.map (fun e =>
         (e.1, e.2.map (fun pt => (some (jsToFixedVal pt.1 p), some (jsToFixedVal pt.2 p)))))⟩ := by
  intro s1 coords
  by_cases hve : networkData.vertices = []
  · rw [vertBlock, if_pos hve, if_pos hve, hve]
    rfl
  · rw [vertBlock, if_neg hve, if_neg hve]
    rw [List.flatMap_cons, splitNl_nl_cons sVERT (by decide),
      flatMap_splitNl_id _ (fun l hl => by
        obtain ⟨e, he, hrfl⟩ := List.mem_flatMap.mp hl
        obtain ⟨pt, hpt, hrfl2⟩ := List.mem_map.mp hrfl
        rw [← hrfl2]
        exact coordLine_no_nl p e.1 pt (hgoodv e he).2.1)]
    rw [show ([[], sVERT] : List Str) ++
        networkData.vertices.flatMap (fun e => e.2.map (fun pt => coordLine p e.1 pt)) =
        [] :: sVERT :: networkData.vertices.flatMap
          (fun e => e.2.map (fun pt => coordLine p e.1 pt)) from rfl,
      List.foldl_cons, stepExtract_blank, List.foldl_cons,
      stepExtract_header _ sVERT (by decide) (by decide),
      foldl_stepExtract_vertEntries networkData.vertices p
        ⟨some sVERT, coords, []⟩ rfl hgoodv hvd (fun e _ => rfl) hvne]
    rfl

/-! ## Claim about the serialize-then-extract round trip (C1) -/

/-- C1 amended: serializing a network whose node and link identifiers are
nonempty, free of whitespace, and do not begin with a comment or bracket
character, whose key lists are duplicate-free, and whose links each carry
at least one vertex, then re-parsing the output with the coordinate
extractor, reproduces exactly the coordinate and vertex maps with every
numeric value replaced by its fixed-precision rounding. -/
theorem c1_roundtrip (inpContent : Str) (networkData : NetworkData) (p : ℕ)
    (hcd : (networkData.coordinates.map Prod.fst).Nodup)
    (hvd : (networkData.vertices.map Prod.fst).Nodup)
    (hgood : ∀ k ∈ networkData.coordinates.map Prod.fst ++
      networkData.vertices.map Prod.fst, goodId k)
    (hvne : ∀ e ∈ networkData.vertices, e.2 ≠ []) :
    extractGeometryData (updateINPWithReprojectedData inpContent networkData p) =
      (networkData.coordinates.map (fun e =>
        (e.1, (some (jsToFixedVal e.2.1 p), some (jsToFixedVal e.2.2 p)))),
       networkData.vertices.map (fun e =>
        (e.1, e.2.map (fun pt => (some (jsToFixedVal pt.1 p), some (jsToFixedVal pt.2 p)))))) := by
  have hgoodc : ∀ e ∈ networkData.coordinates, goodId e.1 := fun e he =>
    hgood e.1 (List.mem_append.mpr (Or.inl (List.mem_map_of_mem Prod.fst he)))
  have hgoodv : ∀ e ∈ networkData.vertices, goodId e.1 := fun e he =>
    hgood e.1 (List.mem_append.mpr (Or.inr (List.mem_map_of_mem Prod.fst he)))
  unfold extractGeometryData updateINPWithReprojectedData
  rw [splitNl_joinNl _ (by simp)]
  simp only [List.flatMap_append]
  rw [flatMap_splitNl_id (updateLoop false false (splitNl inpContent))
      (fun l hl => mem_splitNl_no_nl inpContent l
        (mem_updateLoop (splitNl inpContent) false false l hl))]
  simp only [List.foldl_append]
  obtain ⟨s1, hs1⟩ := foldl_stepExtract_updateLoop (splitNl inpContent) false false
    ⟨none, [], []⟩ (by simp) (by simp)
  rw [hs1, foldl_stepExtract_coordBlock networkData p hgoodc hcd s1,
    foldl_stepExtract_vertBlock networkData p hgoodv hvd hvne _ _,
    show (['\n' :: sEND] : List Str).flatMap splitNl = [[], sEND] from by
      rw [List.flatMap_cons, splitNl_nl_cons sEND (by decide)]
      rfl,
    List.foldl_cons, stepExtract_blank, List.foldl_cons,
    stepExtract_header _ sEND (by decide) (by decide)]
  rfl

/-! ## Claims about the schema constants -/

/-- C3 counterexample: the claim that every defaulted attribute is required
fails on the pipes schema, whose `defaultValues` cover the optional
attributes `MinorLoss` and `Status`. -/
theorem c3_defaults_counterexample :
    ¬ (∀ el ∈ EPANET_ELEMENTS, ∀ kv ∈ el.defaultValues, kv.1 ∈ el.requiredAttributes) := by
  decide

/-- C3 amended: every attribute with an entry in a schema's `defaultValues`
is one of that schema's required or optional attributes; defaults are not
limited to required attributes. -/
theorem c3_defaults_amended :
    ∀ el ∈ EPANET_ELEMENTS, ∀ kv ∈ el.defaultValues,
      kv.1 ∈ el.requiredAttributes ∨ kv.1 ∈ el.optionalAttributes := by
  decide

/-- C3 witness: the amended statement applied to the pipes schema and its
defaulted optional attribute `MinorLoss`. -/
theorem c3_defaults_witness :
    pipesElement ∈ EPANET_ELEMENTS ∧
      ("MinorLoss" ∈ pipesElement.requiredAttributes ∨
        "MinorLoss" ∈ pipesElement.optionalAttributes) :=
  ⟨by decide,
   c3_defaults_amended pipesElement (by decide) ("MinorLoss", .num 0) (by decide)⟩

/-- C4: the default pipe roughness resolves per headloss formula from
`PIPE_ROUGHNESS_DEFAULT` with fallback 100; under Darcy-Weisbach it is 0.01
and under Hazen-Williams it is 100. -/
theorem c4_default_roughness :
    getDefaultPipeRoughness "Darcy-Weisbach" = 0.01 ∧
      getDefaultPipeRoughness "Hazen-Williams" = 100 ∧
      ∀ formula, getDefaultPipeRoughness formula =
        (lookupA PIPE_ROUGHNESS_DEFAULT formula).getD 100 :=
  ⟨rfl, rfl, fun _ => rfl⟩

/-- Members of a list with pairwise-distinct images under a map are equal
when their images agree. -/
theorem nodup_map_member_eq {α β : Type} (f : α → β) (l : List α)
    (hnd : (l.map f).Nodup) :
    ∀ x ∈ l, ∀ y ∈ l, f x = f y → x = y := by
  induction l with
  | nil => intro x hx; simp at hx
  | cons a t ih =>
    simp only [List.map_cons, List.nodup_cons] at hnd
    intro x hx y hy hxy
    rcases List.mem_cons.mp hx with h1 | h1
    · rcases List.mem_cons.mp hy with h2 | h2
      · rw [h1, h2]
      · exfalso
        apply hnd.1
        rw [← h1, hxy]
        exact List.mem_map_of_mem f h2
    · rcases List.mem_cons.mp hy with h2 | h2
      · exfalso
        apply hnd.1
        rw [← h2, ← hxy]
        exact List.mem_map_of_mem f h1
      · exact ih hnd.2 x h1 y h2 hxy

/-- C5: the geometry-validity check accepts a geometry type exactly when
some schema entry carries the element kind and lists that geometry type;
in particular an element kind with no schema entry rejects everything. -/
theorem c5_geometry_validation :
    ∀ geometryType elementType,
      isValidGeometryForElement geometryType elementType = true ↔
        ∃ el, el ∈ EPANET_ELEMENTS ∧ el.key = elementType ∧
          geometryType ∈ el.geometryTypes := by
  intro g e
  unfold isValidGeometryForElement
  constructor
  · intro h
    cases hF : EPANET_ELEMENTS.find? (fun el => el.key == e) with
    | none => rw [hF] at h; exact absurd h (by simp)
    | some el =>
      rw [hF] at h
      refine ⟨el, List.mem_of_find?_eq_some hF, ?_, ?_⟩
      · have hp := List.find?_some hF
        simpa using hp
      · simpa using h
  · rintro ⟨el, hel, hkey, hg⟩
    have hsome : (EPANET_ELEMENTS.find? (fun el => el.key == e)).isSome := by
      apply List.find?_isSome.mpr
      exact ⟨el, hel, by simp [hkey]⟩
    cases hF : EPANET_ELEMENTS.find? (fun el => el.key == e) with
    | none => rw [hF] at hsome; simp at hsome
    | some el' =>
      have hkey' : el'.key = e := by
        have hp := List.find?_some hF
        simpa using hp
      have hnd : (EPANET_ELEMENTS.map EpanetElementDefinition.key).Nodup := by decide
      have : el' = el :=
        nodup_map_member_eq EpanetElementDefinition.key EPANET_ELEMENTS hnd
          el' (List.mem_of_find?_eq_some hF) el hel (by rw [hkey', hkey])
      simpa [this] using hg

/-- C5 witness: pipes accept LineString and reject Point, and an unknown
element kind rejects LineString. -/
theorem c5_geometry_validation_witness :
    isValidGeometryForElement "LineString" "pipes" = true ∧
      isValidGeometryForElement "Point" "pipes" = false ∧
      isValidGeometryForElement "LineString" "rivers" = false :=
  ⟨(c5_geometry_validation "LineString" "pipes").mpr
      ⟨pipesElement, by decide, by decide, by decide⟩,
   by decide, by decide⟩

/-- C7: the flow units are exactly the disjoint US and metric groups,
`isMetricUnit` tests metric-group membership, and `getAttributeUnit`
returns the metric or US label for the five mapped attributes according to
`isMetricUnit`, and null for any other attribute. -/
theorem c7_flow_units :
    FLOW_UNITS = FLOW_UNITS_US ++ FLOW_UNITS_METRIC ∧
      (∀ u ∈ FLOW_UNITS_US, u ∉ FLOW_UNITS_METRIC) ∧
      (∀ u, isMetricUnit u = true ↔ u ∈ FLOW_UNITS_METRIC) ∧
      (∀ u, getAttributeUnit "Diameter" u =
        some (if isMetricUnit u then "mm" else "in")) ∧
      (∀ u, ∀ a ∈ (["InitLevel", "MinLevel", "MaxLevel", "Head"] : List String),
        getAttributeUnit a u = some (if isMetricUnit u then "m" else "ft")) ∧
      (∀ u a, a ∉ (["Diameter", "InitLevel", "MinLevel", "MaxLevel", "Head"] : List String) →
        getAttributeUnit a u = none) := by
  refine ⟨rfl, by decide, ?_, ?_, ?_, ?_⟩
  · intro u
    exact List.elem_iff
  · intro u; rfl
  · intro u a ha
    fin_cases ha <;> rfl
  · intro u a ha
    simp only [List.mem_cons, List.not_mem_nil, or_false, not_or] at ha
    obtain ⟨h1, h2, h3, h4, h5⟩ := ha
    simp [getAttributeUnit, ATTRIBUTE_UNIT_MAP, lookupA,
      Ne.symm h1, Ne.symm h2, Ne.symm h3, Ne.symm h4, Ne.symm h5]

/-- C7 witness: concrete instances of the grouped-unit facts. -/
theorem c7_flow_units_witness :
    ("GPM" ∉ FLOW_UNITS_METRIC) ∧
      getAttributeUnit "Head" "LPS" = some "m" ∧
      getAttributeUnit "Roughness" "GPM" = none := by
  refine ⟨c7_flow_units.2.1 "GPM" (by decide), ?_, ?_⟩
  · have h := c7_flow_units.2.2.2.2.1 "LPS" "Head" (by decide)
    simpa using h
  · exact c7_flow_units.2.2.2.2.2 "GPM" "Roughness" (by decide)

/-! ## Witnesses evaluating the numeric pipeline on concrete inputs

The Batteries rational operations are irreducible by default; they are made
semireducible here so that concrete rational arithmetic evaluates. -/

attribute [local semireducible] Rat.add Rat.mul Rat.inv Rat.sub Rat.ofScientific

/-- C8 witness: the digits-after-the-point conjunct applied to one half at
precision two. -/
theorem c8_fixed_precision_witness :
    ((jsToFixed (1 / 2) 2).dropWhile (fun c => !(c == '.'))).length = 3 ∧
      fracDigitCount (jsToFixed (1 / 2) 2) = 2 := by
  constructor
  · decide
  · exact c8_fixed_precision.1 (1 / 2) 2

/-- C1 counterexample: a node identifier containing no whitespace but
beginning with the comment character is serialized as a comment line, so
the original claim's whitespace-only restriction is insufficient: the
coordinate entry is lost on re-parsing. -/
theorem c1_roundtrip_counterexample :
    (∀ c ∈ (";x".data : Str), isWsChar c = false) ∧
    extractGeometryData (updateINPWithReprojectedData []
      ⟨[((";x".data : Str), ((0 : ℚ), (0 : ℚ)))], [], [], []⟩ 4) = ([], []) ∧
    ([] : List (Str × (Option ℚ × Option ℚ))) ≠
      [((";x".data : Str), (some (jsToFixedVal 0 4), some (jsToFixedVal 0 4)))] := by
  refine ⟨by decide, by decide, by decide⟩

/-- C1 witness: the amended round trip evaluated on a concrete network
with one node and one two-vertex link over a base document. -/
theorem c1_roundtrip_witness :
    extractGeometryData (updateINPWithReprojectedData ("[OPTIONS]\nfoo 1\n[END]".data)
        ⟨[(("N1".data : Str), ((1 / 2 : ℚ), (3 : ℚ)))],
         [(("L1".data : Str), [((1 : ℚ), (2 : ℚ)), ((3 : ℚ), (4 : ℚ))])], [], []⟩ 4) =
      ([(("N1".data : Str), (some (jsToFixedVal (1 / 2) 4), some (jsToFixedVal 3 4)))],
       [(("L1".data : Str), [(some (jsToFixedVal 1 4), some (jsToFixedVal 2 4)),
         (some (jsToFixedVal 3 4), some (jsToFixedVal 4 4))])]) := by
  have h := c1_roundtrip ("[OPTIONS]\nfoo 1\n[END]".data)
    ⟨[(("N1".data : Str), ((1 / 2 : ℚ), (3 : ℚ)))],
     [(("L1".data : Str), [((1 : ℚ), (2 : ℚ)), ((3 : ℚ), (4 : ℚ))])], [], []⟩ 4
    (by decide) (by decide) (by decide) (by decide)
  simpa using h

end EpanetModel
